import Mathlib

/-! Ember voice bot: capture gate, utterance pipeline, WAV packaging, farewell generator,
speech queue, session teardown and memory filter.

A shallow embedding of `src/index.js`.  Mutable per-guild state becomes an explicit record that
the handlers map to a new record, collaborators (file system, whisper, ollama, piper, the random
source) become explicit outcomes passed in, and every call a handler makes to a collaborator is
recorded in an effect trace, so that "the STT collaborator is never invoked" is a statement about
that trace.  The promise chain of `speakInGuild` becomes a machine stepped by the events the
event loop delivers.  Definitions come first, theorems after them.
-/

namespace Ember

/-! ## Configuration and per-guild state -/

/-- Discord snowflakes are strings. -/
abbrev UserId := String

/-- The numeric settings read from the environment at start-up, and `client.user.id`. -/
structure Config where
  SILENCE_MS : Int
  MIN_UTTERANCE_MS : Int
  COOLDOWN_MS : Int
  botId : UserId

/-- The defaults of `index.js`: `SILENCE_MS = 900`, `MIN_UTTERANCE_MS = 700`,
`COOLDOWN_MS = 2000`. -/
def defaultConfig : Config :=
  { SILENCE_MS := 900, MIN_UTTERANCE_MS := 700, COOLDOWN_MS := 2000, botId := "bot" }

/-- The record built by `getOrCreateGuildState`; `connection` only records whether it is set,
`activeListen` is the `Set` in insertion order, `lastHeard` the `Map`. -/
structure GuildState where
  connection : Bool
  isSpeaking : Bool
  activeListen : List UserId
  lastHeard : UserId → Option Int
  listeningWired : Bool

/-- The state `getOrCreateGuildState` creates on first reference. -/
def freshGuildState : GuildState :=
  { connection := false, isSpeaking := false, activeListen := [],
    lastHeard := fun _ => none, listeningWired := false }

/-- `Set.prototype.add`. -/
def setAdd (s : List UserId) (u : UserId) : List UserId :=
  if u ∈ s then s else s ++ [u]

/-- `Set.prototype.delete`. -/
def setDelete (s : List UserId) (u : UserId) : List UserId :=
  s.filter (fun v => v ≠ u)

/-- `Map.prototype.set`. -/
def mapSet (m : UserId → Option Int) (u : UserId) (v : Int) : UserId → Option Int :=
  fun w => if w = u then some v else m w

/-! ## The speaking-start handler of `startListeningForVoice` -/

/-- The statements of the handler that touch the session or the transport, in execution order. -/
inductive GateEffect
  | setLastHeard (userId : UserId) (now : Int)
  | addActive (userId : UserId)
  | subscribe (userId : UserId) (silenceMs : Int)
  | deleteActive (userId : UserId)
  | logError
  deriving DecidableEq, Repr

/-- The session after the handler ran and what it did. -/
structure GateResult where
  state : GuildState
  effects : List GateEffect

/-- The body of `receiver.speaking.on("start", (userId) => ...)` at time `now = Date.now()`.
`setupThrows` is the outcome of wiring the capture (`receiver.subscribe`, the opus decoder, the
pipe): when it throws, the `catch` removes the speaker again and logs. -/
def onSpeakingStart (cfg : Config) (state : GuildState) (userId : UserId) (now : Int)
    (setupThrows : Bool) : GateResult :=
  if state.isSpeaking then ⟨state, []⟩
  else if userId ∈ state.activeListen then ⟨state, []⟩
  else if userId = cfg.botId then ⟨state, []⟩
  else
    let last := (state.lastHeard userId).getD 0
    if now - last < cfg.COOLDOWN_MS then ⟨state, []⟩
    else
      let s1 := { state with lastHeard := mapSet state.lastHeard userId now }
      let s2 := { s1 with activeListen := setAdd s1.activeListen userId }
      if setupThrows then
        ⟨{ s2 with activeListen := setDelete s2.activeListen userId },
          [.setLastHeard userId now, .addActive userId, .subscribe userId cfg.SILENCE_MS,
            .deleteActive userId, .logError]⟩
      else
        ⟨s2, [.setLastHeard userId now, .addActive userId, .subscribe userId cfg.SILENCE_MS]⟩

/-- The gate admitted the event: the handler added the speaker to `activeListen` and asked the
receiver for a capture. -/
def admitted (cfg : Config) (r : GateResult) (userId : UserId) : Bool :=
  decide (GateEffect.addActive userId ∈ r.effects) &&
    decide (GateEffect.subscribe userId cfg.SILENCE_MS ∈ r.effects)

/-- The four admission rules of the gate, as one proposition. -/
def gateOpen (cfg : Config) (state : GuildState) (userId : UserId) (now : Int) : Prop :=
  state.isSpeaking = false ∧ userId ∉ state.activeListen ∧ userId ≠ cfg.botId ∧
    ¬ (now - (state.lastHeard userId).getD 0 < cfg.COOLDOWN_MS)

instance (cfg : Config) (state : GuildState) (userId : UserId) (now : Int) :
    Decidable (gateOpen cfg state userId now) := by
  unfold gateOpen; infer_instance

/-! ## The session as a machine over its events -/

/-- What can happen to one guild session: a speaking-start event, the end or failure of a capture
stream, the speech worker raising or clearing `isSpeaking`, and `/leave`. -/
inductive SessionEvent
  | speakingStart (userId : UserId) (now : Int) (setupThrows : Bool)
  | captureEnd (userId : UserId)
  | captureError (userId : UserId)
  | setSpeaking (flag : Bool)
  | leave

/-- The effect of one event on the session record.  `captureEnd` and `captureError` are the
`activeListen.delete` of the stream callbacks, `leave` is the tail of the `/leave` handler. -/
def sessionStep (cfg : Config) (s : GuildState) : SessionEvent → GuildState
  | .speakingStart u now thr => (onSpeakingStart cfg s u now thr).state
  | .captureEnd u => { s with activeListen := setDelete s.activeListen u }
  | .captureError u => { s with activeListen := setDelete s.activeListen u }
  | .setSpeaking b => { s with isSpeaking := b }
  | .leave => { s with connection := false, listeningWired := false, activeListen := [] }

/-- For each speaking-start event of speaker `u` in the trace, in order, whether the gate
admitted it. -/
def admissions (cfg : Config) (u : UserId) : GuildState → List SessionEvent → List Bool
  | _, [] => []
  | s, .speakingStart v now thr :: rest =>
    if v = u then
      admitted cfg (onSpeakingStart cfg s v now thr) v ::
        admissions cfg u (sessionStep cfg s (.speakingStart v now thr)) rest
    else admissions cfg u (sessionStep cfg s (.speakingStart v now thr)) rest
  | s, ev :: rest => admissions cfg u (sessionStep cfg s ev) rest

/-- The times of the speaking-start events of speaker `u` in the trace, in order. -/
def startTimes (u : UserId) : List SessionEvent → List Int
  | [] => []
  | .speakingStart v now _ :: rest => if v = u then now :: startTimes u rest else startTimes u rest
  | _ :: rest => startTimes u rest

/-! ## WAV packaging -/

/-- A Node `Buffer`: a list of octets. -/
abbrev Bytes := List Nat

/-- The octets of an ASCII string, as `Buffer.write` stores them. -/
def asciiBytes (s : String) : Bytes := s.toList.map Char.toNat

/-- Overwrite `buf` from `offset` on with the octets `bs`; a buffer never grows. -/
def writeAt : Bytes → Nat → Bytes → Bytes
  | [], _, _ => []
  | b :: buf, 0, [] => b :: buf
  | _ :: buf, 0, x :: bs => x :: writeAt buf 0 bs
  | b :: buf, offset + 1, bs => b :: writeAt buf offset bs

/-- `buf.write(string, offset)` for an ASCII string. -/
def bufferWrite (buf : Bytes) (s : String) (offset : Nat) : Bytes :=
  writeAt buf offset (asciiBytes s)

/-- `buf.writeUInt32LE(value, offset)`: throws `ERR_OUT_OF_RANGE` unless `value < 2^32`. -/
def writeUInt32LE (buf : Bytes) (value offset : Nat) : Except String Bytes :=
  if value < 2 ^ 32 then
    .ok (writeAt buf offset
      [value % 256, value / 256 % 256, value / 65536 % 256, value / 16777216 % 256])
  else .error "ERR_OUT_OF_RANGE"

/-- `buf.writeUInt16LE(value, offset)`: throws `ERR_OUT_OF_RANGE` unless `value < 2^16`. -/
def writeUInt16LE (buf : Bytes) (value offset : Nat) : Except String Bytes :=
  if value < 2 ^ 16 then .ok (writeAt buf offset [value % 256, value / 256 % 256])
  else .error "ERR_OUT_OF_RANGE"

/-- `buf.readUInt32LE(offset)`. -/
def readUInt32LE (buf : Bytes) (offset : Nat) : Nat :=
  buf.getD offset 0 + 256 * buf.getD (offset + 1) 0 + 65536 * buf.getD (offset + 2) 0 +
    16777216 * buf.getD (offset + 3) 0

/-- `buf.readUInt16LE(offset)`. -/
def readUInt16LE (buf : Bytes) (offset : Nat) : Nat :=
  buf.getD offset 0 + 256 * buf.getD (offset + 1) 0

/-- `pcm16ToWavBuffer(pcmBuffer, sampleRate, channels)`; an `error` is the `RangeError` thrown by
a header write whose value does not fit its field. -/
def pcm16ToWavBuffer (pcmBuffer : Bytes) (sampleRate : Nat := 16000) (channels : Nat := 1) :
    Except String Bytes := do
  let bitsPerSample := 16
  let byteRate := (sampleRate * channels * bitsPerSample) / 8
  let blockAlign := (channels * bitsPerSample) / 8
  let dataSize := pcmBuffer.length
  let headerSize := 44
  let fileSize := headerSize + dataSize
  let header : Bytes := List.replicate headerSize 0
  let header := bufferWrite header "RIFF" 0
  let header ← writeUInt32LE header (fileSize - 8) 4
  let header := bufferWrite header "WAVE" 8
  let header := bufferWrite header "fmt " 12
  let header ← writeUInt32LE header 16 16
  let header ← writeUInt16LE header 1 20
  let header ← writeUInt16LE header channels 22
  let header ← writeUInt32LE header sampleRate 24
  let header ← writeUInt32LE header byteRate 28
  let header ← writeUInt16LE header blockAlign 32
  let header ← writeUInt16LE header bitsPerSample 34
  let header := bufferWrite header "data" 36
  let header ← writeUInt32LE header dataSize 40
  return header ++ pcmBuffer

/-- The 44 header octets that `pcm16ToWavBuffer` produces for `n` data bytes when every field
fits; used to state what the function returns. -/
def wavHeader (n sampleRate channels : Nat) : Bytes :=
  [82, 73, 70, 70,
   (36 + n) % 256, (36 + n) / 256 % 256, (36 + n) / 65536 % 256, (36 + n) / 16777216 % 256,
   87, 65, 86, 69, 102, 109, 116, 32,
   16, 0, 0, 0, 1, 0,
   channels % 256, channels / 256 % 256,
   sampleRate % 256, sampleRate / 256 % 256, sampleRate / 65536 % 256,
   sampleRate / 16777216 % 256,
   (sampleRate * channels * 2) % 256, (sampleRate * channels * 2) / 256 % 256,
   (sampleRate * channels * 2) / 65536 % 256, (sampleRate * channels * 2) / 16777216 % 256,
   (channels * 2) % 256, (channels * 2) / 256 % 256,
   16, 0,
   100, 97, 116, 97,
   n % 256, n / 256 % 256, n / 65536 % 256, n / 16777216 % 256]

/-! ## Double-precision arithmetic of the duration check -/

/-- Number of binary digits of `n`, by halving at most `fuel` times. -/
def bitLengthAux : Nat → Nat → Nat
  | 0, _ => 0
  | fuel + 1, n => if n = 0 then 0 else bitLengthAux fuel (n / 2) + 1

/-- Number of binary digits of `n` (`n` halvings always suffice). -/
def bitLength (n : Nat) : Nat := bitLengthAux n n

/-- The binary64 value nearest to the rational `num / den` (ties to even), returned as a
fraction.  Exact for the normal range of binary64, which is where the duration check lives
(a buffer length is below `2^53`); overflow and subnormals are not modelled. -/
def roundDouble (num den : Nat) : Nat × Nat :=
  if num = 0 then (0, 1)
  else
    let s : Int := 53 + (bitLength den : Int) - (bitLength num : Int)
    let n1 := if 0 ≤ s then num * 2 ^ s.toNat else num
    let d1 := if 0 ≤ s then den else den * 2 ^ (-s).toNat
    let d2 := if n1 / d1 < 2 ^ 53 then d1 else 2 * d1
    let scale : Int := if n1 / d1 < 2 ^ 53 then s else s - 1
    let q := n1 / d2
    let r := n1 % d2
    let m := if 2 * r < d2 then q else if d2 < 2 * r then q + 1 else if q % 2 = 0 then q else q + 1
    if 0 ≤ scale then (m, 2 ^ scale.toNat) else (m * 2 ^ (-scale).toNat, 1)

/-- `Math.floor((pcmBuffer.length / 2 / 16000) * 1000)`, each operation rounded to binary64 as
JavaScript does. -/
def approxMs (byteLength : Nat) : Nat :=
  let half := roundDouble byteLength 2
  let seconds := roundDouble half.1 (half.2 * 16000)
  let ms := roundDouble (seconds.1 * 1000) seconds.2
  ms.1 / ms.2

/-! ## JavaScript strings -/

/-- The code points `\s` matches and `trim` strips (WhiteSpace and LineTerminator). -/
def isJsWhitespace (c : Char) : Bool :=
  [0x09, 0x0A, 0x0B, 0x0C, 0x0D, 0x20, 0xA0, 0x1680, 0x2028, 0x2029, 0x202F, 0x205F, 0x3000,
    0xFEFF].contains c.toNat || (0x2000 ≤ c.toNat && c.toNat ≤ 0x200A)

/-- `String.prototype.trim`. -/
def jsTrim (s : String) : String :=
  ⟨((s.data.dropWhile isJsWhitespace).reverse.dropWhile isJsWhitespace).reverse⟩

/-- The scan behind `replace(/\s+/g, " ")`: `inRun` says the previous character was whitespace. -/
def collapseAux : Bool → List Char → List Char
  | _, [] => []
  | inRun, c :: cs =>
    if isJsWhitespace c then
      if inRun then collapseAux true cs else ' ' :: collapseAux true cs
    else c :: collapseAux false cs

/-- `s.replace(/\s+/g, " ")`: every maximal run of whitespace becomes one space. -/
def collapseWhitespace (s : String) : String := ⟨collapseAux false s.data⟩

/-- Lower-case form of one code point.  Exact for every code point whose lower-case form
contains an ASCII character (`A`-`Z`, U+0130, U+212A); any other code point is left as it is,
which never yields an ASCII character either, so searches for ASCII text see what
`toLowerCase` gives them. -/
def lowerChar (c : Char) : List Char :=
  if c.toNat = 0x130 then ['i', Char.ofNat 0x307]
  else if c.toNat = 0x212A then ['k']
  else [c.toLower]

/-- `String.prototype.toLowerCase`, see `lowerChar`. -/
def jsToLowerCase (s : String) : String := ⟨(s.data.map lowerChar).flatten⟩

/-- `s.length`: the number of UTF-16 code units. -/
def jsLength (s : String) : Nat :=
  (s.data.map (fun c => if c.toNat < 0x10000 then 1 else 2)).sum

/-- Whether `pat` occurs in `s` as a contiguous block. -/
def includesChars : List Char → List Char → Bool
  | [], pat => pat.isEmpty
  | c :: cs, pat => pat.isPrefixOf (c :: cs) || includesChars cs pat

/-- `s.includes(pat)`. -/
def jsIncludes (s pat : String) : Bool := includesChars s.data pat.data

/-! ## Farewell generator -/

/-- An entry of the phrase table. -/
structure Phrase where
  lang : String
  code : String
  text : String
  deriving DecidableEq, Repr

/-- The phrase table of `index.js`. -/
def GOODNIGHT_PHRASES : List Phrase :=
  [ { lang := "English", code := "en", text := "Goodnight!" },
    { lang := "Spanish", code := "es", text := "Buenas noches." },
    { lang := "French", code := "fr", text := "Bonne nuit." },
    { lang := "Portuguese", code := "pt", text := "Boa noite." },
    { lang := "Italian", code := "it", text := "Buona notte." },
    { lang := "German", code := "de", text := "Gute Nacht." },
    { lang := "Dutch", code := "nl", text := "Goedenacht." },
    { lang := "Swedish", code := "sv", text := "God natt." },
    { lang := "Polish", code := "pl", text := "Dobranoc." },
    { lang := "Russian", code := "ru", text := "Спокойной ночи." },
    { lang := "Greek", code := "el", text := "Καληνύχτα." },
    { lang := "Turkish", code := "tr", text := "İyi geceler." },
    { lang := "Arabic", code := "ar", text := "تصبح على خير." },
    { lang := "Hindi", code := "hi", text := "शुभ रात्रि।" },
    { lang := "Japanese", code := "ja", text := "おやすみ。" },
    { lang := "Korean", code := "ko", text := "안녕히 주무세요." },
    { lang := "Chinese (Simplified)", code := "zh", text := "晚安。" } ]

/-- One outcome of `Math.random()`: the number `num / den`, which lies in `[0, 1)`. -/
structure Draw where
  num : Nat
  den : Nat
  lt : num < den

/-- `Math.floor(Math.random() * length)` for the draw `d`.  The product is taken exactly; the
rounding of the binary64 product can move the index by one but never out of `[0, length)`. -/
def Draw.index (d : Draw) (length : Nat) : Nat := d.num * length / d.den

/-- The `while` loop of `pickRandom`: `k` draws were consumed, `copy` is what is left of the
array and `remaining` is `n - out.length`; the result is what the loop still pushes to `out`. -/
def pickLoop {α : Type} (rnd : Nat → Draw) : Nat → List α → Nat → List α
  | _, _, 0 => []
  | k, copy, remaining + 1 =>
    if h : copy.length = 0 then []
    else
      let idx := (rnd k).index copy.length
      have hidx : idx < copy.length := by
        have hd := (rnd k).lt
        have hlen : 0 < copy.length := by omega
        exact (Nat.div_lt_iff_lt_mul (by omega)).2
          (by rw [Nat.mul_comm copy.length]; exact Nat.mul_lt_mul_of_pos_right hd hlen)
      copy.get ⟨idx, hidx⟩ :: pickLoop rnd (k + 1) (copy.eraseIdx idx) remaining

/-- `pickRandom(arr, n)` with the random source `rnd`. -/
def pickRandom {α : Type} (rnd : Nat → Draw) (arr : List α) (n : Int) : List α :=
  pickLoop rnd 0 arr n.toNat

/-- The `picks` of `buildGoodnightMessage`. -/
def goodnightPicks (rnd : Nat → Draw) (count : Int) (includeEnglish : Bool) : List Phrase :=
  let pool := if includeEnglish then GOODNIGHT_PHRASES
    else GOODNIGHT_PHRASES.filter (fun p => p.code ≠ "en")
  pickRandom rnd pool (max 1 (min 8 count))

/-- The line of one pick: the text followed by the language in parentheses. -/
def phraseLine (p : Phrase) : String := p.text ++ " (" ++ p.lang ++ ")"

/-- `buildGoodnightMessage({ count, includeEnglish })` with the random source `rnd`. -/
def buildGoodnightMessage (rnd : Nat → Draw) (count : Int := 4) (includeEnglish : Bool := true) :
    String :=
  let picks := goodnightPicks rnd count includeEnglish
  let lines := picks.map phraseLine
  "Okay chat… " ++ "  ".intercalate lines

/-! ## Collaborators of the utterance pipeline -/

/-- How the `whisper-cli` child process ended. -/
inductive WhisperOutcome
  | spawnError
  | exited (code : Int) (stdout stderr : String)

/-- `whisperTranscribe(wavPath)`: the normalised transcript, or the rejection. -/
def whisperTranscribe : WhisperOutcome → Except String String
  | .spawnError => .error "spawn error"
  | .exited code stdout stderr =>
    if code = 0 then .ok (jsTrim (collapseWhitespace (jsTrim stdout)))
    else .error ("whisper-cli exited: " ++ stderr)

/-- How the HTTP call to Ollama ended: `fetch` rejected, a response that is not `ok`, a body
that is not JSON, or a parsed body with its `response` field (if any). -/
inductive OllamaOutcome
  | fetchThrows
  | notOk (status : Nat) (body : String)
  | badJson
  | ok (response : Option String)

/-- `ollamaGenerateText(prompt, options)`: `(data.response || "").trim()`, or the rejection. -/
def ollamaGenerateText : OllamaOutcome → Except String String
  | .fetchThrows => .error "fetch failed"
  | .notOk _ body => .error ("Ollama error: " ++ body)
  | .badJson => .error "invalid json"
  | .ok response => .ok (jsTrim (response.getD ""))

/-- A turn of the recent-turn log. -/
structure Turn where
  role : String
  text : String
  ts : Int
  userId : Option String
  username : Option String
  deriving DecidableEq, Repr

/-- The memory record of one guild. -/
structure Memory where
  call_summary : String
  recent_turns : List Turn
  last_updated : Option String
  deriving DecidableEq, Repr

/-- `pushTurn(memory, turn, maxTurns)`. -/
def pushTurn (memory : Memory) (turn : Turn) (maxTurns : Nat := 60) : Memory :=
  let turns := memory.recent_turns ++ [turn]
  if turns.length > maxTurns then
    { memory with recent_turns := turns.drop (turns.length - maxTurns) }
  else { memory with recent_turns := turns }

/-- Whether `/sk-[a-z0-9]{10,}/i` matches at the head of the text. -/
def skKeyAt : List Char → Bool
  | a :: b :: c :: rest =>
    (a == 's' || a == 'S') && (b == 'k' || b == 'K') && c == '-' &&
      decide ((rest.takeWhile Char.isAlphanum).length ≥ 10)
  | _ => false

/-- `/sk-[a-z0-9]{10,}/i.test(text)` on the characters of the text. -/
def matchesSkKey : List Char → Bool
  | [] => false
  | c :: cs => skKeyAt (c :: cs) || matchesSkKey cs

/-- `shouldStoreText(text)`. -/
def shouldStoreText (text : String) : Bool :=
  let t := jsToLowerCase text
  if jsIncludes t "password" || jsIncludes t "api key" || jsIncludes t "secret" then false
  else if matchesSkKey text.data then false
  else true

/-- The filler of `generateReplyFromTranscript` for an empty reply. -/
def fillerReply : String := "…no thoughts, head empty."

/-- What `generateReplyFromTranscript` resolves to, and the memory it saved. -/
structure Reply where
  text : String
  memory : Memory
  deriving DecidableEq, Repr

/-- `generateReplyFromTranscript({ guildId, transcript, username, userId })` on the loaded
`memory`, with the outcome of the Ollama call, the clock and the outcome of `saveMemory`; an
`error` is a rejection.  The prompt text is not modelled. -/
def generateReplyFromTranscript (memory : Memory) (transcript username userId : String)
    (ollama : OllamaOutcome) (now : Int) (nowIso : String) (saveOk : Bool) :
    Except String Reply :=
  match ollamaGenerateText ollama with
  | .error e => .error e
  | .ok reply =>
    let safeReply := if reply = "" then fillerReply else reply
    let memory1 :=
      if shouldStoreText transcript then
        pushTurn memory
          { role := "user", text := transcript, ts := now, userId := some userId,
            username := some username }
      else memory
    let memory2 :=
      if shouldStoreText safeReply then
        pushTurn memory1
          { role := "assistant", text := safeReply, ts := now, userId := none, username := none }
      else memory1
    if saveOk then .ok ⟨safeReply, { memory2 with last_updated := some nowIso }⟩
    else .error "saveMemory failed"

/-! ## The utterance pipeline -/

/-- Everything outside the pipeline that decides how one utterance goes: the file system, the
whisper process, the stored memory, the Ollama call, the clock and the random source. -/
structure PipelineEnv where
  writeFileOk : Bool
  whisper : WhisperOutcome
  memory : Memory
  ollama : OllamaOutcome
  saveMemoryOk : Bool
  now : Int
  nowIso : String
  rnd : Nat → Draw

/-- The calls `handleUserUtterance` makes, in order: writing the WAV file, running whisper on
it, `generateReplyFromTranscript` (the Ollama call), `speakInGuild`, the error log of the
`catch`, and the `unlink` of the `finally`. -/
inductive PipelineEffect
  | writeFile (wav : Bytes)
  | whisper (wav : Bytes)
  | generate (transcript username userId : String)
  | speak (guildId text : String)
  | logError
  | unlink
  deriving DecidableEq, Repr

/-- What one run of `handleUserUtterance` did, and whether its promise rejected. -/
structure PipelineResult where
  effects : List PipelineEffect
  rejected : Bool
  deriving DecidableEq, Repr

/-- The farewell test of `handleUserUtterance` on `lower = transcript.toLowerCase().trim()`. -/
def isFarewell (lower : String) : Bool :=
  jsIncludes lower "goodnight" || jsIncludes lower "good night" || lower == "gn"

/-- `handleUserUtterance({ guildId, userId, username, pcmBuffer })`. -/
def handleUserUtterance (cfg : Config) (env : PipelineEnv) (guildId userId username : String)
    (pcmBuffer : Bytes) : PipelineResult :=
  let approx := approxMs pcmBuffer.length
  if (approx : Int) < cfg.MIN_UTTERANCE_MS then ⟨[], false⟩
  else
    match pcm16ToWavBuffer pcmBuffer 16000 1 with
    | .error _ => ⟨[], true⟩
    | .ok wavBuf =>
      let body : List PipelineEffect :=
        if !env.writeFileOk then [.writeFile wavBuf, .logError]
        else
          match whisperTranscribe env.whisper with
          | .error _ => [.writeFile wavBuf, .whisper wavBuf, .logError]
          | .ok transcript =>
            if transcript = "" || decide (jsLength transcript < 2) then
              [.writeFile wavBuf, .whisper wavBuf]
            else
              let lower := jsTrim (jsToLowerCase transcript)
              if isFarewell lower then
                let msg := buildGoodnightMessage env.rnd 4 true
                [.writeFile wavBuf, .whisper wavBuf, .speak guildId msg]
              else
                match generateReplyFromTranscript env.memory transcript username userId
                    env.ollama env.now env.nowIso env.saveMemoryOk with
                | .error _ =>
                  [.writeFile wavBuf, .whisper wavBuf, .generate transcript username userId,
                    .logError]
                | .ok reply =>
                  [.writeFile wavBuf, .whisper wavBuf, .generate transcript username userId,
                    .speak guildId reply.text]
      ⟨body ++ [.unlink], false⟩

/-- The guild member looked up for a speaker, when the cache has one. -/
structure Member where
  displayName : Option String
  username : Option String

/-- `member?.displayName || member?.user?.username || "someone"`. -/
def resolveUsername (member : Option Member) : String :=
  match member.bind (fun m => m.displayName) with
  | some n => if n = "" then
      (match member.bind (fun m => m.username) with
        | some u => if u = "" then "someone" else u
        | none => "someone")
      else n
  | none =>
    match member.bind (fun m => m.username) with
    | some u => if u = "" then "someone" else u
    | none => "someone"

/-- The `once("end")` callback of a capture: the stream closed after `SILENCE_MS` of silence,
`chunks` is what the decoder delivered. -/
def onCaptureEnd (cfg : Config) (env : PipelineEnv) (state : GuildState) (guildId : String)
    (userId : UserId) (member : Option Member) (chunks : List Bytes) :
    GuildState × PipelineResult :=
  let state1 := { state with activeListen := setDelete state.activeListen userId }
  if state1.isSpeaking then (state1, ⟨[], false⟩)
  else
    let username := resolveUsername member
    let pcmBuffer := chunks.flatten
    (state1, handleUserUtterance cfg env guildId userId username pcmBuffer)

/-- The `once("error")` callback of a capture. -/
def onCaptureError (state : GuildState) (userId : UserId) : GuildState :=
  { state with activeListen := setDelete state.activeListen userId }

/-! ## The speech queue of `speakInGuild`

`state.queue` is a chain of promises: every call replaces it by
`state.queue.then(action).catch(log)`.  The machine below keeps one record per chained action,
with the link of the chain the action was attached to, and lets the event loop deliver the
completions (piper exiting, the player going idle, `unlink` settling) in any order. -/

/-- Where a chained action stands: its callback has not run yet, it awaits
`piperTtsToWavFile`, it awaits the player's `Idle`, it awaits the `unlink` of the `finally`, or
its link of the chain has settled. -/
inductive Phase
  | waiting
  | synthesizing
  | playing
  | unlinking
  | settled
  deriving DecidableEq, Repr

/-- One `.then(async () => ...)` callback of the chain.  `waitsOn` is the link it was attached
to: `none` for the initial `Promise.resolve()`, `some i` for the link made by action `i`.
`failed` records that the body threw, so that the `.catch` handler runs when it ends. -/
structure SpeechAction where
  text : String
  waitsOn : Option Nat
  phase : Phase
  failed : Bool
  deriving DecidableEq, Repr

/-- What the listeners of the voice channel can observe: `player.play` being called for an
action, and the link of an action settling (the action has played to idle, or failed). -/
inductive SpeechLog
  | play (k : Nat) (text : String)
  | settle (k : Nat)
  deriving DecidableEq, Repr

/-- The guild record together with the chain: `queue` is the link `state.queue` holds, action `k`
of `actions` is the callback whose completion settles link `some k`, and `log` lists what
happened so far, newest first. -/
structure SpeechState where
  guild : GuildState
  queue : Option Nat
  actions : List SpeechAction
  log : List SpeechLog

/-- What the event loop can deliver to the chain. -/
inductive SpeechEvent
  | call (text : String)
  | run (k : Nat)
  | synthesized (k : Nat) (ok : Bool)
  | idle
  | unlinked (k : Nat)
  | setConnection (present : Bool)
  deriving DecidableEq, Repr

/-- Replace action `k` by `f` of it. -/
def updateAt : List SpeechAction → Nat → (SpeechAction → SpeechAction) → List SpeechAction
  | [], _, _ => []
  | a :: rest, 0, f => f a :: rest
  | a :: rest, k + 1, f => a :: updateAt rest k f

/-- The phase of action `k`, if there is one. -/
def phaseOf (s : SpeechState) (k : Nat) : Option Phase := (s.actions[k]?).map (fun a => a.phase)

/-- Whether a link of the chain has settled, so that a callback attached to it may run. -/
def linkSettled (s : SpeechState) : Option Nat → Bool
  | none => true
  | some i => phaseOf s i == some Phase.settled

/-- One step of the event loop.
* `call text` is `speakInGuild(guildId, text)`: nothing without a connection, otherwise a new
  callback attached to the link in `state.queue`, whose own link becomes `state.queue`.
* `run k` is the callback of action `k` starting, possible once the link it waits on has
  settled: it sets `isSpeaking` and spawns piper.
* `synthesized k ok` is piper exiting: on failure the `finally` clears `isSpeaking`, the `catch`
  logs and the link settles; on success `player.play(resource)` is called, then
  `connection.subscribe`, which throws when the connection is gone.
* `idle` is the player's `Idle` event, which resolves the wait of whoever is playing; the
  `finally` clears `isSpeaking` and awaits `unlink`.
* `unlinked k` is that `unlink` settling, after which the link of action `k` settles.
* `setConnection` is `/join` or `/leave` setting `state.connection`.
An event that nothing waits for leaves the state as it is. -/
def speechStep (s : SpeechState) : SpeechEvent → SpeechState
  | .call text =>
    if s.guild.connection then
      { s with
        actions := s.actions ++
          [{ text := text, waitsOn := s.queue, phase := .waiting, failed := false }],
        queue := some s.actions.length }
    else s
  | .run k =>
    match s.actions[k]? with
    | some a =>
      if a.phase = .waiting ∧ linkSettled s a.waitsOn = true then
        { s with
          guild := { s.guild with isSpeaking := true },
          actions := updateAt s.actions k (fun a => { a with phase := .synthesizing }) }
      else s
    | none => s
  | .synthesized k ok =>
    match s.actions[k]? with
    | some a =>
      if a.phase = .synthesizing then
        if ok then
          if s.guild.connection then
            { s with
              actions := updateAt s.actions k (fun a => { a with phase := .playing }),
              log := .play k a.text :: s.log }
          else
            { s with
              guild := { s.guild with isSpeaking := false },
              actions := updateAt s.actions k
                (fun a => { a with phase := .unlinking, failed := true }),
              log := .play k a.text :: s.log }
        else
          { s with
            guild := { s.guild with isSpeaking := false },
            actions := updateAt s.actions k (fun a => { a with phase := .settled, failed := true }),
            log := .settle k :: s.log }
      else s
    | none => s
  | .idle =>
    if s.actions.any (fun a => a.phase == .playing) then
      { s with
        guild := { s.guild with isSpeaking := false },
        actions := s.actions.map
          (fun a => if a.phase = .playing then { a with phase := .unlinking } else a) }
    else s
  | .unlinked k =>
    match s.actions[k]? with
    | some a =>
      if a.phase = .unlinking then
        { s with
          guild := if a.failed then { s.guild with isSpeaking := false } else s.guild,
          actions := updateAt s.actions k (fun a => { a with phase := .settled }),
          log := .settle k :: s.log }
      else s
    | none => s
  | .setConnection present => { s with guild := { s.guild with connection := present } }

/-- The chain after the events `evs`, delivered in that order. -/
def speechRun (s : SpeechState) (evs : List SpeechEvent) : SpeechState :=
  evs.foldl speechStep s

/-- A guild that has a connection and whose chain is the initial `Promise.resolve()`. -/
def joinedSpeech : SpeechState :=
  { guild := { freshGuildState with connection := true }, queue := none, actions := [],
    log := [] }

/-- The texts of the `speakInGuild` calls among the events, in call order. -/
def callTexts : List SpeechEvent → List String
  | [] => []
  | .call text :: rest => text :: callTexts rest
  | _ :: rest => callTexts rest

/-- The events that take action `k` from start to end when piper and the player succeed. -/
def serveAction (k : Nat) : List SpeechEvent :=
  [.run k, .synthesized k true, .idle, .unlinked k]

/-- The text of action `k`, if there is one. -/
def textOf (s : SpeechState) (k : Nat) : Option String := (s.actions[k]?).map (fun a => a.text)

/-- The link action `k` waits on, if there is such an action. -/
def waitsOf (s : SpeechState) (k : Nat) : Option (Option Nat) :=
  (s.actions[k]?).map (fun a => a.waitsOn)

/-- A log (newest first) is in order when every `play k` is preceded by the `settle` of every
action before `k`, and by no `play` of an action after `k`. -/
def LogOk : List SpeechLog → Prop
  | [] => True
  | .play k _ :: rest =>
    (∀ i, i < k → SpeechLog.settle i ∈ rest) ∧ (∀ j u, SpeechLog.play j u ∈ rest → j < k) ∧
      LogOk rest
  | .settle _ :: rest => LogOk rest

/-- What every reachable state of the chain satisfies: `state.queue` is the link of the last
action, every action waits on the link of the one before it, everything before an action that
has started has settled, and the log agrees with the phases and is in order. -/
structure SpeechInv (s : SpeechState) : Prop where
  queue_eq : s.queue = (match s.actions.length with | 0 => none | n + 1 => some n)
  waits_zero : ∀ w, waitsOf s 0 = some w → w = none
  waits_succ : ∀ k w, waitsOf s (k + 1) = some w → w = some k
  front : ∀ i j p, i < j → phaseOf s j = some p → p ≠ Phase.waiting →
    phaseOf s i = some Phase.settled
  log_play : ∀ k t, SpeechLog.play k t ∈ s.log →
    textOf s k = some t ∧ ∃ p, phaseOf s k = some p ∧ p ≠ Phase.waiting ∧ p ≠ Phase.synthesizing
  log_settle : ∀ k, phaseOf s k = some Phase.settled → SpeechLog.settle k ∈ s.log
  log_ok : LogOk s.log

/-- The actions that calls with the given texts chain from position `k` on, all in one phase. -/
def chainOf : Nat → List String → Phase → List SpeechAction
  | _, [], _ => []
  | k, t :: ts, p =>
    { text := t, waitsOn := if k = 0 then none else some (k - 1), phase := p, failed := false } ::
      chainOf (k + 1) ts p

/-- The log, oldest first, of actions `k`, `k + 1`, ... playing the given texts one after the
other. -/
def playLog : Nat → List String → List SpeechLog
  | _, [] => []
  | k, t :: ts => .play k t :: .settle k :: playLog (k + 1) ts

/-- The chain of a guild with a connection after the calls `done ++ todo`, when the actions of
`done` have played and settled and those of `todo` have not started. -/
def servedState (done todo : List String) : SpeechState :=
  { guild := { freshGuildState with connection := true },
    queue := if done.length + todo.length = 0 then none
      else some (done.length + todo.length - 1),
    actions := chainOf 0 done .settled ++ chainOf done.length todo .waiting,
    log := (playLog 0 done).reverse }

/-- The events that serve actions `k`, `k + 1`, ..., `k + n - 1`, one after the other. -/
def serveFrom : Nat → Nat → List SpeechEvent
  | _, 0 => []
  | k, n + 1 => serveAction k ++ serveFrom (k + 1) n

/-! ## Joining and leaving a voice channel -/

/-- The state changes of `startListeningForVoice(guildId)`: nothing without a connection or when
the listeners are already wired, otherwise `listeningWired` is set (and the speaking-start
handler is attached to the receiver of the connection). -/
def startListeningForVoice (state : GuildState) : GuildState :=
  if !state.connection then state
  else if state.listeningWired then state
  else { state with listeningWired := true }

/-- The state changes of the `/join` handler: `state.connection = connection`, then
`startListeningForVoice`. -/
def joinSession (state : GuildState) : GuildState :=
  startListeningForVoice { state with connection := true }

/-- The tail of the `/leave` handler, after the connection is destroyed:
`state.connection = null`, `state.listeningWired = false`, `state.activeListen.clear()`.
The guild record stays in `guildVoice`, and `lastHeard` is not touched. -/
def leaveSession (state : GuildState) : GuildState :=
  { state with connection := false, listeningWired := false, activeListen := [] }

/-- A joined session in which `alice` was last admitted at time 10000 and her capture has
ended. -/
def heardState : GuildState :=
  { connection := true, isSpeaking := false, activeListen := [],
    lastHeard := fun u => if u = "alice" then some 10000 else none, listeningWired := true }

/-! ## Sample inputs -/

/-- An environment in which every collaborator succeeds: whisper hears `goodnight`, Ollama
answers `hi`, and every random draw is `0`. -/
def sampleEnv : PipelineEnv :=
  { writeFileOk := true, whisper := .exited 0 "goodnight\n" "", memory := ⟨"", [], none⟩,
    ollama := .ok (some "hi"), saveMemoryOk := true, now := 0, nowIso := "",
    rnd := fun _ => ⟨0, 1, Nat.zero_lt_one⟩ }

/-- A joined session in which the bot is speaking while `alice` is being captured. -/
def speakingState : GuildState :=
  { connection := true, isSpeaking := true, activeListen := ["alice"],
    lastHeard := fun _ => none, listeningWired := true }

/-- A joined session in which `alice` is being captured and the bot is silent. -/
def listeningState : GuildState :=
  { connection := true, isSpeaking := false, activeListen := ["alice"],
    lastHeard := fun _ => none, listeningWired := true }

/-- `ms` milliseconds of silence as 16 kHz mono 16-bit PCM. -/
def silencePcm (ms : Nat) : Bytes := List.replicate (32 * ms) 0

/-! # Theorems -/

/-! ## The capture gate -/

theorem onSpeakingStart_closed (cfg : Config) (s : GuildState) (u : UserId) (now : Int)
    (thr : Bool) (h : ¬ gateOpen cfg s u now) :
    (onSpeakingStart cfg s u now thr).state = s ∧ (onSpeakingStart cfg s u now thr).effects = [] := by
  unfold gateOpen at h
  unfold onSpeakingStart
  by_cases h1 : s.isSpeaking = true
  · simp [h1]
  · by_cases h2 : u ∈ s.activeListen
    · simp [h1, h2]
    · by_cases h3 : u = cfg.botId
      · simp [h1, h2, h3]
      · have h4 : now - (s.lastHeard u).getD 0 < cfg.COOLDOWN_MS := by
          by_contra h4
          exact h ⟨by simpa using h1, h2, h3, h4⟩
        simp [h1, h2, h3, h4]

theorem onSpeakingStart_open (cfg : Config) (s : GuildState) (u : UserId) (now : Int)
    (thr : Bool) (h : gateOpen cfg s u now) :
    admitted cfg (onSpeakingStart cfg s u now thr) u = true ∧
      (onSpeakingStart cfg s u now thr).state.lastHeard = mapSet s.lastHeard u now ∧
      (onSpeakingStart cfg s u now thr).state.isSpeaking = s.isSpeaking ∧
      (thr = false → (onSpeakingStart cfg s u now thr).state.activeListen = s.activeListen ++ [u]) := by
  obtain ⟨h1, h2, h3, h4⟩ := h
  unfold admitted onSpeakingStart
  cases thr <;> simp [h1, h2, h3, h4, setAdd]

theorem admitted_iff_gateOpen (cfg : Config) (s : GuildState) (u : UserId) (now : Int)
    (thr : Bool) : admitted cfg (onSpeakingStart cfg s u now thr) u = true ↔ gateOpen cfg s u now := by
  constructor
  · intro h
    by_contra hc
    have := (onSpeakingStart_closed cfg s u now thr hc).2
    simp [admitted, this] at h
  · intro h
    exact (onSpeakingStart_open cfg s u now thr h).1

theorem sessionStep_lastHeard_other (cfg : Config) (s : GuildState) (u : UserId)
    (ev : SessionEvent) (h : ∀ now thr, ev ≠ .speakingStart u now thr) :
    (sessionStep cfg s ev).lastHeard u = s.lastHeard u := by
  cases ev with
  | speakingStart v now thr =>
    have hv : u ≠ v := by
      intro hv
      exact h now thr (by rw [hv])
    by_cases hg : gateOpen cfg s v now
    · simp [sessionStep, (onSpeakingStart_open cfg s v now thr hg).2.1, mapSet, hv]
    · simp [sessionStep, (onSpeakingStart_closed cfg s v now thr hg).1]
  | captureEnd v => rfl
  | captureError v => rfl
  | setSpeaking b => rfl
  | leave => rfl

theorem admissions_none_while_speaking (cfg : Config) (v : UserId) (tr : List SessionEvent) :
    ∀ s : GuildState, s.isSpeaking = true → (∀ ev ∈ tr, ev ≠ SessionEvent.setSpeaking false) →
      ∀ b ∈ admissions cfg v s tr, b = false := by
  induction tr with
  | nil => intro s _ _ b hb; simp [admissions] at hb
  | cons ev rest ih =>
    intro s hs hev b hb
    have hrest : ∀ e ∈ rest, e ≠ SessionEvent.setSpeaking false :=
      fun e he => hev e (List.mem_cons_of_mem _ he)
    cases ev with
    | speakingStart w now thr =>
      have hclosed : ¬ gateOpen cfg s w now := by
        intro hg
        rw [hg.1] at hs
        exact Bool.noConfusion hs
      have hst := onSpeakingStart_closed cfg s w now thr hclosed
      have hadm : admitted cfg (onSpeakingStart cfg s w now thr) w = false := by
        simp [admitted, hst.2]
      simp only [admissions, sessionStep, hst.1] at hb
      split at hb
      · rcases List.mem_cons.mp hb with h | h
        · rw [h, hadm]
        · exact ih s hs hrest b h
      · exact ih s hs hrest b hb
    | captureEnd w => exact ih (sessionStep cfg s (.captureEnd w)) hs hrest b hb
    | captureError w => exact ih (sessionStep cfg s (.captureError w)) hs hrest b hb
    | setSpeaking f =>
      have hf : f = true := by
        cases f
        · exact absurd rfl (hev _ (List.mem_cons_self _ _))
        · rfl
      exact ih (sessionStep cfg s (.setSpeaking f)) (by rw [hf]; rfl) hrest b hb
    | leave => exact ih (sessionStep cfg s .leave) hs hrest b hb

theorem admissions_none_in_cooldown (cfg : Config) (u : UserId) (last : Int)
    (tr : List SessionEvent) :
    ∀ s : GuildState, s.lastHeard u = some last →
      (∀ t ∈ startTimes u tr, t - last < cfg.COOLDOWN_MS) →
      ∀ b ∈ admissions cfg u s tr, b = false := by
  induction tr with
  | nil => intro s _ _ b hb; simp [admissions] at hb
  | cons ev rest ih =>
    intro s hs ht b hb
    by_cases hev : ∃ now thr, ev = SessionEvent.speakingStart u now thr
    · obtain ⟨now, thr, rfl⟩ := hev
      have hnow : now - last < cfg.COOLDOWN_MS := ht now (by simp [startTimes])
      have hrest : ∀ t ∈ startTimes u rest, t - last < cfg.COOLDOWN_MS :=
        fun t h => ht t (by simp [startTimes, h])
      have hclosed : ¬ gateOpen cfg s u now := by
        intro hg
        apply hg.2.2.2
        simpa [hs] using hnow
      have hst := onSpeakingStart_closed cfg s u now thr hclosed
      have hadm : admitted cfg (onSpeakingStart cfg s u now thr) u = false := by
        simp [admitted, hst.2]
      simp only [admissions, sessionStep, hst.1, if_true] at hb
      rcases List.mem_cons.mp hb with h | h
      · rw [h, hadm]
      · exact ih s hs hrest b h
    · have hne : ∀ now thr, ev ≠ SessionEvent.speakingStart u now thr :=
        fun now thr h => hev ⟨now, thr, h⟩
      have hs2 : (sessionStep cfg s ev).lastHeard u = some last := by
        rw [sessionStep_lastHeard_other cfg s u ev hne, hs]
      have htimes : startTimes u (ev :: rest) = startTimes u rest := by
        cases ev with
        | speakingStart w now thr =>
          have : w ≠ u := fun h => hne now thr (by rw [h])
          simp [startTimes, this]
        | captureEnd w => rfl
        | captureError w => rfl
        | setSpeaking f => rfl
        | leave => rfl
      have hadms : admissions cfg u s (ev :: rest) =
          admissions cfg u (sessionStep cfg s ev) rest := by
        cases ev with
        | speakingStart w now thr =>
          have : w ≠ u := fun h => hne now thr (by rw [h])
          simp [admissions, this]
        | captureEnd w => rfl
        | captureError w => rfl
        | setSpeaking f => rfl
        | leave => rfl
      rw [hadms] at hb
      rw [htimes] at ht
      exact ih _ hs2 ht b hb

/-- C1. The speaking-start handler admits an event (adds the speaker to `activeListen` and asks
the receiver for a capture) exactly when `isSpeaking` is false, the speaker is not in
`activeListen`, the speaker is not the bot, and `now - lastHeard[speaker]` (0 when absent) is not
less than `COOLDOWN_MS`.  An admitted event whose capture is wired without a throw leaves the
speaker appended to `activeListen`; a rejected event changes nothing; and while `isSpeaking`
stays set, no event of any trace is admitted for any speaker. -/
theorem gate_admits_iff_four_rules (cfg : Config) (s : GuildState) (u : UserId) (now : Int)
    (thr : Bool) :
    (admitted cfg (onSpeakingStart cfg s u now thr) u = true ↔
      (s.isSpeaking = false ∧ u ∉ s.activeListen ∧ u ≠ cfg.botId ∧
        ¬ (now - (s.lastHeard u).getD 0 < cfg.COOLDOWN_MS))) ∧
    (admitted cfg (onSpeakingStart cfg s u now thr) u = true → thr = false →
      (onSpeakingStart cfg s u now thr).state.activeListen = s.activeListen ++ [u] ∧
      (onSpeakingStart cfg s u now thr).state.lastHeard u = some now ∧
      GateEffect.subscribe u cfg.SILENCE_MS ∈ (onSpeakingStart cfg s u now thr).effects) ∧
    (admitted cfg (onSpeakingStart cfg s u now thr) u = false →
      (onSpeakingStart cfg s u now thr).state = s ∧
      (onSpeakingStart cfg s u now thr).effects = []) ∧
    (s.isSpeaking = true →
      admitted cfg (onSpeakingStart cfg s u now thr) u = false ∧
      ∀ tr : List SessionEvent, (∀ ev ∈ tr, ev ≠ SessionEvent.setSpeaking false) →
        ∀ v : UserId, ∀ b ∈ admissions cfg v s tr, b = false) := by
  have hiff := admitted_iff_gateOpen cfg s u now thr
  refine ⟨hiff, ?_, ?_, ?_⟩
  · intro ha hthr
    have hopen := onSpeakingStart_open cfg s u now thr (hiff.mp ha)
    refine ⟨hopen.2.2.2 hthr, ?_, ?_⟩
    · rw [hopen.2.1]; simp [mapSet]
    · have := hopen.1
      simp only [admitted, Bool.and_eq_true, decide_eq_true_eq] at this
      exact this.2
  · intro ha
    apply onSpeakingStart_closed
    intro hg
    rw [hiff.mpr hg] at ha
    exact Bool.noConfusion ha
  · intro hs
    constructor
    · cases hadm : admitted cfg (onSpeakingStart cfg s u now thr) u
      · rfl
      · have := (hiff.mp hadm).1
        rw [this] at hs
        exact Bool.noConfusion hs
    · intro tr htr v b hb
      exact admissions_none_while_speaking cfg v tr s hs htr b hb

/-- An instance of C1: a first event of speaker `alice` at time 10000 is admitted by a fresh
session, and with `isSpeaking` set two further events are both rejected. -/
theorem gate_admits_iff_four_rules_witness :
    (onSpeakingStart defaultConfig freshGuildState "alice" 10000 false).state.activeListen
        = [] ++ ["alice"] ∧
      (admissions defaultConfig "alice" { freshGuildState with isSpeaking := true }
        [.speakingStart "alice" 10000 false, .speakingStart "alice" 20000 false]).all
          (fun b => b == false) = true :=
  ⟨((gate_admits_iff_four_rules defaultConfig freshGuildState "alice" 10000 false).2.1
      (by decide) rfl).1,
    List.all_eq_true.mpr (fun b hb => by
      have h := ((gate_admits_iff_four_rules defaultConfig
        { freshGuildState with isSpeaking := true } "alice" 10000 false).2.2.2 rfl).2
        [.speakingStart "alice" 10000 false, .speakingStart "alice" 20000 false]
        (by intro ev hev; simp at hev; rcases hev with rfl | rfl <;> simp) "alice" b hb
      simp [h])⟩

/-- C3, as stated, fails.  Consecutive events of one speaker less than `COOLDOWN_MS = 2000` apart
(at 10000, 11500 and 13000, the first capture having ended in between) are admitted, rejected
and admitted: the third is admitted although it is not the first.  And of two events 500 ms
apart, the first rejected because the bot was speaking, the second is the one admitted. -/
theorem cooldown_consecutive_gap_counterexample :
    (startTimes "alice"
        [.speakingStart "alice" 10000 false, .captureEnd "alice",
          .speakingStart "alice" 11500 false, .speakingStart "alice" 13000 false]
        = [10000, 11500, 13000] ∧
      List.Chain' (fun a b : Int => b - a < defaultConfig.COOLDOWN_MS) [10000, 11500, 13000] ∧
      admissions defaultConfig "alice" freshGuildState
        [.speakingStart "alice" 10000 false, .captureEnd "alice",
          .speakingStart "alice" 11500 false, .speakingStart "alice" 13000 false]
        = [true, false, true]) ∧
    (startTimes "alice"
        [.setSpeaking true, .speakingStart "alice" 10000 false, .setSpeaking false,
          .speakingStart "alice" 10500 false]
        = [10000, 10500] ∧
      admissions defaultConfig "alice" freshGuildState
        [.setSpeaking true, .speakingStart "alice" 10000 false, .setSpeaking false,
          .speakingStart "alice" 10500 false]
        = [false, true]) := by
  refine ⟨⟨by decide, by simp [defaultConfig], by decide⟩, by decide, by decide⟩

/-- C3, amended. When every speaking-start event of a speaker in a trace is less than
`COOLDOWN_MS` after every earlier one (not only after the one just before it), the gate admits
at most one of them, whatever else happens to the session in between. -/
theorem cooldown_admits_at_most_one (cfg : Config) (u : UserId) (tr : List SessionEvent) :
    ∀ s : GuildState,
      (startTimes u tr).Pairwise (fun a b => b - a < cfg.COOLDOWN_MS) →
      (admissions cfg u s tr).count true ≤ 1 := by
  induction tr with
  | nil => intro s _; simp [admissions]
  | cons ev rest ih =>
    intro s hp
    by_cases hev : ∃ now thr, ev = SessionEvent.speakingStart u now thr
    · obtain ⟨now, thr, rfl⟩ := hev
      simp only [startTimes, if_true, List.pairwise_cons] at hp
      simp only [admissions, if_true]
      cases hadm : admitted cfg (onSpeakingStart cfg s u now thr) u
      · simpa using ih _ hp.2
      · have hopen := onSpeakingStart_open cfg s u now thr
          ((admitted_iff_gateOpen cfg s u now thr).mp hadm)
        have hlast : (sessionStep cfg s (.speakingStart u now thr)).lastHeard u = some now := by
          simp [sessionStep, hopen.2.1, mapSet]
        have hnone := admissions_none_in_cooldown cfg u now rest _ hlast hp.1
        have hzero : (admissions cfg u (sessionStep cfg s (.speakingStart u now thr)) rest).count
            true = 0 := by
          rw [List.count_eq_zero]
          intro hmem
          exact Bool.noConfusion (hnone true hmem)
        simp [hzero]
    · have hne : ∀ now thr, ev ≠ SessionEvent.speakingStart u now thr :=
        fun now thr h => hev ⟨now, thr, h⟩
      have htimes : startTimes u (ev :: rest) = startTimes u rest := by
        cases ev with
        | speakingStart w now thr =>
          have : w ≠ u := fun h => hne now thr (by rw [h])
          simp [startTimes, this]
        | captureEnd w => rfl
        | captureError w => rfl
        | setSpeaking f => rfl
        | leave => rfl
      have hadms : admissions cfg u s (ev :: rest) =
          admissions cfg u (sessionStep cfg s ev) rest := by
        cases ev with
        | speakingStart w now thr =>
          have : w ≠ u := fun h => hne now thr (by rw [h])
          simp [admissions, this]
        | captureEnd w => rfl
        | captureError w => rfl
        | setSpeaking f => rfl
        | leave => rfl
      rw [hadms]
      rw [htimes] at hp
      exact ih _ hp

/-- An instance of the amended C3: three events within one cooldown window, the capture of the
first having ended in between. -/
theorem cooldown_admits_at_most_one_witness :
    (startTimes "alice"
        [.speakingStart "alice" 10000 false, .captureEnd "alice",
          .speakingStart "alice" 11500 false, .speakingStart "alice" 11900 false]).Pairwise
        (fun a b => b - a < defaultConfig.COOLDOWN_MS) ∧
      (admissions defaultConfig "alice" freshGuildState
        [.speakingStart "alice" 10000 false, .captureEnd "alice",
          .speakingStart "alice" 11500 false, .speakingStart "alice" 11900 false]).count true
        ≤ 1 :=
  ⟨by decide, cooldown_admits_at_most_one defaultConfig "alice" _ freshGuildState (by decide)⟩

/-! ## WAV packaging -/

theorem writeUInt32LE_ok (buf : Bytes) (v off : Nat) (h : v < 2 ^ 32) :
    writeUInt32LE buf v off = .ok (writeAt buf off
      [v % 256, v / 256 % 256, v / 65536 % 256, v / 16777216 % 256]) := by
  unfold writeUInt32LE
  rw [if_pos h]

theorem writeUInt16LE_ok (buf : Bytes) (v off : Nat) (h : v < 2 ^ 16) :
    writeUInt16LE buf v off = .ok (writeAt buf off [v % 256, v / 256 % 256]) := by
  unfold writeUInt16LE
  rw [if_pos h]

theorem pcm16ToWavBuffer_ok (pcm : Bytes) (sampleRate channels : Nat)
    (hfile : 36 + pcm.length < 2 ^ 32) (hrate : sampleRate < 2 ^ 32)
    (hbyte : sampleRate * channels * 2 < 2 ^ 32) (hblock : channels * 2 < 2 ^ 16) :
    pcm16ToWavBuffer pcm sampleRate channels =
      .ok (wavHeader pcm.length sampleRate channels ++ pcm) := by
  have h1 : 44 + pcm.length - 8 = 36 + pcm.length := by omega
  have h2 : sampleRate * channels * 16 / 8 = sampleRate * channels * 2 := by omega
  have h3 : channels * 16 / 8 = channels * 2 := by omega
  have h4 : channels < 2 ^ 16 := by omega
  have h5 : pcm.length < 2 ^ 32 := by omega
  simp only [pcm16ToWavBuffer, h1, h2, h3, bind, Except.bind, pure, Except.pure,
    writeUInt32LE_ok _ _ _ hfile, writeUInt32LE_ok _ _ _ hrate, writeUInt32LE_ok _ _ _ hbyte,
    writeUInt32LE_ok _ _ _ h5, writeUInt32LE_ok _ 16 _ (by norm_num),
    writeUInt16LE_ok _ _ _ h4, writeUInt16LE_ok _ _ _ hblock,
    writeUInt16LE_ok _ 1 _ (by norm_num), writeUInt16LE_ok _ 16 _ (by norm_num)]
  rfl

theorem pcm16ToWavBuffer_too_long (pcm : Bytes) (sampleRate channels : Nat)
    (h : 2 ^ 32 ≤ 36 + pcm.length) :
    pcm16ToWavBuffer pcm sampleRate channels = .error "ERR_OUT_OF_RANGE" := by
  have h1 : ¬ (44 + pcm.length - 8 < 2 ^ 32) := by omega
  simp only [pcm16ToWavBuffer, writeUInt32LE, h1, if_false, bind, Except.bind]

/-- C6, as stated, fails: an empty buffer at 16000 Hz with 40000 channels meets the three stated
bounds, yet the block-align field `channels * 2 = 80000` does not fit 16 bits, the header write
throws and no header is returned. -/
theorem wav_roundtrip_counterexample :
    36 + ([] : Bytes).length < 2 ^ 32 ∧ 16000 < 2 ^ 32 ∧ 40000 < 2 ^ 16 ∧
      pcm16ToWavBuffer [] 16000 40000 = .error "ERR_OUT_OF_RANGE" := by
  refine ⟨by norm_num, by norm_num, by norm_num, rfl⟩

/-- C6, amended. When every header field fits (`36 + n < 2^32`, `sampleRate < 2^32`,
`sampleRate * channels * 2 < 2^32`, `channels * 2 < 2^16`), `pcm16ToWavBuffer` returns a buffer
whose header reads back as `channels` at offset 22, `sampleRate` at 24, `16` bits per sample at
34 and the PCM byte length at 40. -/
theorem wav_header_roundtrip (pcm : Bytes) (sampleRate channels : Nat)
    (hfile : 36 + pcm.length < 2 ^ 32) (hrate : sampleRate < 2 ^ 32)
    (hbyte : sampleRate * channels * 2 < 2 ^ 32) (hblock : channels * 2 < 2 ^ 16) :
    pcm16ToWavBuffer pcm sampleRate channels
        = .ok (wavHeader pcm.length sampleRate channels ++ pcm) ∧
      readUInt16LE (wavHeader pcm.length sampleRate channels ++ pcm) 22 = channels ∧
      readUInt32LE (wavHeader pcm.length sampleRate channels ++ pcm) 24 = sampleRate ∧
      readUInt16LE (wavHeader pcm.length sampleRate channels ++ pcm) 34 = 16 ∧
      readUInt32LE (wavHeader pcm.length sampleRate channels ++ pcm) 40 = pcm.length := by
  refine ⟨pcm16ToWavBuffer_ok pcm sampleRate channels hfile hrate hbyte hblock, ?_, ?_, ?_, ?_⟩
  · show channels % 256 + 256 * (channels / 256 % 256) = channels
    omega
  · show sampleRate % 256 + 256 * (sampleRate / 256 % 256) + 65536 * (sampleRate / 65536 % 256)
      + 16777216 * (sampleRate / 16777216 % 256) = sampleRate
    omega
  · rfl
  · show pcm.length % 256 + 256 * (pcm.length / 256 % 256) + 65536 * (pcm.length / 65536 % 256)
      + 16777216 * (pcm.length / 16777216 % 256) = pcm.length
    omega

/-- An instance of the amended C6: four bytes of mono 16 kHz PCM. -/
theorem wav_header_roundtrip_witness :
    (36 + ([1, 2, 3, 4] : Bytes).length < 2 ^ 32 ∧ 16000 < 2 ^ 32 ∧ 16000 * 1 * 2 < 2 ^ 32 ∧
      1 * 2 < 2 ^ 16) ∧
    (pcm16ToWavBuffer [1, 2, 3, 4] 16000 1
        = .ok (wavHeader ([1, 2, 3, 4] : Bytes).length 16000 1 ++ [1, 2, 3, 4]) ∧
      readUInt16LE (wavHeader ([1, 2, 3, 4] : Bytes).length 16000 1 ++ [1, 2, 3, 4]) 22 = 1 ∧
      readUInt32LE (wavHeader ([1, 2, 3, 4] : Bytes).length 16000 1 ++ [1, 2, 3, 4]) 24 = 16000 ∧
      readUInt16LE (wavHeader ([1, 2, 3, 4] : Bytes).length 16000 1 ++ [1, 2, 3, 4]) 34 = 16 ∧
      readUInt32LE (wavHeader ([1, 2, 3, 4] : Bytes).length 16000 1 ++ [1, 2, 3, 4]) 40
        = ([1, 2, 3, 4] : Bytes).length) :=
  ⟨⟨by norm_num, by norm_num, by norm_num, by norm_num⟩,
    wav_header_roundtrip [1, 2, 3, 4] 16000 1 (by norm_num) (by norm_num) (by norm_num)
      (by norm_num)⟩

/-- C7, as stated, fails: at a sample rate of 3000000000 Hz the byte-rate field
`sampleRate * channels * 2` does not fit 32 bits, the header write throws and nothing is
returned. -/
theorem wav_layout_counterexample :
    pcm16ToWavBuffer [0, 0] 3000000000 1 = .error "ERR_OUT_OF_RANGE" := rfl

/-- C7, amended. When every header field fits (`36 + n < 2^32`, `sampleRate < 2^32`,
`sampleRate * channels * 2 < 2^32`, `channels * 2 < 2^16`), `pcm16ToWavBuffer` returns exactly
`44 + n` bytes: the tags `RIFF`, `WAVE`, `fmt ` and `data` at offsets 0, 8, 12 and 36, the byte
rate `sampleRate * channels * 2` at 28, the block align `channels * 2` at 32, and from offset 44
on the PCM bytes unchanged. -/
theorem wav_layout (pcm : Bytes) (sampleRate channels : Nat)
    (hfile : 36 + pcm.length < 2 ^ 32) (hrate : sampleRate < 2 ^ 32)
    (hbyte : sampleRate * channels * 2 < 2 ^ 32) (hblock : channels * 2 < 2 ^ 16) :
    pcm16ToWavBuffer pcm sampleRate channels
        = .ok (wavHeader pcm.length sampleRate channels ++ pcm) ∧
      (wavHeader pcm.length sampleRate channels ++ pcm).length = 44 + pcm.length ∧
      (wavHeader pcm.length sampleRate channels ++ pcm).take 4 = asciiBytes "RIFF" ∧
      ((wavHeader pcm.length sampleRate channels ++ pcm).drop 8).take 4 = asciiBytes "WAVE" ∧
      ((wavHeader pcm.length sampleRate channels ++ pcm).drop 12).take 4 = asciiBytes "fmt " ∧
      ((wavHeader pcm.length sampleRate channels ++ pcm).drop 36).take 4 = asciiBytes "data" ∧
      readUInt32LE (wavHeader pcm.length sampleRate channels ++ pcm) 28
        = sampleRate * channels * 2 ∧
      readUInt16LE (wavHeader pcm.length sampleRate channels ++ pcm) 32 = channels * 2 ∧
      (wavHeader pcm.length sampleRate channels ++ pcm).drop 44 = pcm := by
  refine ⟨pcm16ToWavBuffer_ok pcm sampleRate channels hfile hrate hbyte hblock,
    ?_, rfl, rfl, rfl, rfl, ?_, ?_, rfl⟩
  · simp [wavHeader]; omega
  · show sampleRate * channels * 2 % 256 + 256 * (sampleRate * channels * 2 / 256 % 256)
      + 65536 * (sampleRate * channels * 2 / 65536 % 256)
      + 16777216 * (sampleRate * channels * 2 / 16777216 % 256) = sampleRate * channels * 2
    omega
  · show channels * 2 % 256 + 256 * (channels * 2 / 256 % 256) = channels * 2
    omega

/-- An instance of the amended C7: two bytes of stereo 44.1 kHz PCM. -/
theorem wav_layout_witness :
    (36 + ([7, 9] : Bytes).length < 2 ^ 32 ∧ 44100 < 2 ^ 32 ∧ 44100 * 2 * 2 < 2 ^ 32 ∧
      2 * 2 < 2 ^ 16) ∧
    (wavHeader ([7, 9] : Bytes).length 44100 2 ++ [7, 9]).length = 44 + ([7, 9] : Bytes).length ∧
    readUInt32LE (wavHeader ([7, 9] : Bytes).length 44100 2 ++ [7, 9]) 28 = 44100 * 2 * 2 ∧
    (wavHeader ([7, 9] : Bytes).length 44100 2 ++ [7, 9]).drop 44 = [7, 9] :=
  ⟨⟨by norm_num, by norm_num, by norm_num, by norm_num⟩,
    (wav_layout [7, 9] 44100 2 (by norm_num) (by norm_num) (by norm_num) (by norm_num)).2.1,
    (wav_layout [7, 9] 44100 2 (by norm_num) (by norm_num) (by norm_num)
      (by norm_num)).2.2.2.2.2.2.1,
    (wav_layout [7, 9] 44100 2 (by norm_num) (by norm_num) (by norm_num)
      (by norm_num)).2.2.2.2.2.2.2.2⟩

/-! ## The utterance pipeline -/

theorem silencePcm_length (ms : Nat) : (silencePcm ms).length = 32 * ms := by
  simp [silencePcm]

/-- What the pipeline does once the clip is long enough and fits a WAV header. -/
theorem handleUserUtterance_long (cfg : Config) (env : PipelineEnv)
    (guildId userId username : String) (pcm : Bytes)
    (hlong : ¬ (approxMs pcm.length : Int) < cfg.MIN_UTTERANCE_MS)
    (hfit : 36 + pcm.length < 2 ^ 32) :
    handleUserUtterance cfg env guildId userId username pcm =
      ⟨(if !env.writeFileOk then
          [.writeFile (wavHeader pcm.length 16000 1 ++ pcm), .logError]
        else
          match whisperTranscribe env.whisper with
          | .error _ => [.writeFile (wavHeader pcm.length 16000 1 ++ pcm),
              .whisper (wavHeader pcm.length 16000 1 ++ pcm), .logError]
          | .ok transcript =>
            if transcript = "" || decide (jsLength transcript < 2) then
              [.writeFile (wavHeader pcm.length 16000 1 ++ pcm),
                .whisper (wavHeader pcm.length 16000 1 ++ pcm)]
            else
              if isFarewell (jsTrim (jsToLowerCase transcript)) then
                [.writeFile (wavHeader pcm.length 16000 1 ++ pcm),
                  .whisper (wavHeader pcm.length 16000 1 ++ pcm),
                  .speak guildId (buildGoodnightMessage env.rnd 4 true)]
              else
                match generateReplyFromTranscript env.memory transcript username userId
                    env.ollama env.now env.nowIso env.saveMemoryOk with
                | .error _ =>
                  [.writeFile (wavHeader pcm.length 16000 1 ++ pcm),
                    .whisper (wavHeader pcm.length 16000 1 ++ pcm),
                    .generate transcript username userId, .logError]
                | .ok reply =>
                  [.writeFile (wavHeader pcm.length 16000 1 ++ pcm),
                    .whisper (wavHeader pcm.length 16000 1 ++ pcm),
                    .generate transcript username userId, .speak guildId reply.text])
        ++ [.unlink], false⟩ := by
  unfold handleUserUtterance
  rw [pcm16ToWavBuffer_ok pcm 16000 1 hfit (by norm_num) (by norm_num) (by norm_num)]
  simp only [hlong, if_false]

theorem jsLength_empty_transcript (t : String) (h : 2 ≤ jsLength t) : t ≠ "" := by
  intro ht
  rw [ht] at h
  exact absurd h (by decide)

/-- C4. `handleUserUtterance` takes the duration of a clip to be `approxMs`, the double-precision
value of `Math.floor((length / 2 / 16000) * 1000)`, and when that is below `MIN_UTTERANCE_MS`
it returns at once: no WAV file is written, whisper is not run, nothing is spoken. -/
theorem short_utterance_discarded (cfg : Config) (env : PipelineEnv)
    (guildId userId username : String) (pcm : Bytes)
    (h : (approxMs pcm.length : Int) < cfg.MIN_UTTERANCE_MS) :
    handleUserUtterance cfg env guildId userId username pcm = ⟨[], false⟩ := by
  unfold handleUserUtterance
  simp [h]

/-- The scenario of C4: 300 ms of audio are 9600 bytes, and with `MIN_UTTERANCE_MS = 700` the
clip is discarded. -/
theorem short_utterance_discarded_witness :
    approxMs 9600 = 300 ∧
    (approxMs (silencePcm 300).length : Int) < defaultConfig.MIN_UTTERANCE_MS ∧
    handleUserUtterance defaultConfig sampleEnv "guild" "alice" "Alice" (silencePcm 300)
      = ⟨[], false⟩ :=
  ⟨by decide, by rw [silencePcm_length]; decide,
    short_utterance_discarded defaultConfig sampleEnv "guild" "alice" "Alice" (silencePcm 300)
      (by rw [silencePcm_length]; decide)⟩

/-- C5, as stated, fails.  A capture of 1200 ms that ends while the bot is speaking is dropped by
the `if (state.isSpeaking) return` of the end callback, and whisper is never run on it.  Nor is
whisper run when the WAV file cannot be written, or when the buffer is too long for the 32-bit
size field of the WAV header (the packaging throws). -/
theorem capture_end_while_speaking_counterexample :
    (¬ ((approxMs ([silencePcm 1200].flatten).length : Int) < defaultConfig.MIN_UTTERANCE_MS) ∧
      (onCaptureEnd defaultConfig sampleEnv speakingState "guild" "alice" none
        [silencePcm 1200]).2.effects = []) ∧
    (onCaptureEnd defaultConfig { sampleEnv with writeFileOk := false } listeningState "guild"
        "alice" none [silencePcm 1200]).2.effects =
      [.writeFile (wavHeader 38400 16000 1 ++ silencePcm 1200), .logError, .unlink] ∧
    (onCaptureEnd defaultConfig sampleEnv listeningState "guild" "alice" none
        [silencePcm 134217728]).2 = ⟨[], true⟩ := by
  have hlen : ([silencePcm 1200].flatten).length = 38400 := by
    simp [List.flatten, silencePcm_length]
  refine ⟨⟨by rw [hlen]; decide, rfl⟩, ?_, ?_⟩
  · have hrun : (onCaptureEnd defaultConfig { sampleEnv with writeFileOk := false }
        listeningState "guild" "alice" none [silencePcm 1200]).2 =
        handleUserUtterance defaultConfig { sampleEnv with writeFileOk := false } "guild"
          "alice" "someone" (silencePcm 1200) := by
      simp [onCaptureEnd, listeningState, resolveUsername, List.flatten]
    rw [hrun, handleUserUtterance_long _ _ _ _ _ _ (by rw [silencePcm_length]; decide)
      (by rw [silencePcm_length]; norm_num), silencePcm_length]
    rfl
  · have hrun : (onCaptureEnd defaultConfig sampleEnv listeningState "guild" "alice" none
        [silencePcm 134217728]).2 =
        handleUserUtterance defaultConfig sampleEnv "guild" "alice" "someone"
          (silencePcm 134217728) := by
      simp [onCaptureEnd, listeningState, resolveUsername, List.flatten]
    rw [hrun]
    unfold handleUserUtterance
    rw [pcm16ToWavBuffer_too_long _ _ _ (by rw [silencePcm_length]; norm_num), silencePcm_length]
    have : ¬ ((approxMs (32 * 134217728) : Int) < defaultConfig.MIN_UTTERANCE_MS) := by decide
    simp only [this, if_false]

/-- C5, amended. When a capture ends normally while the bot is not speaking, with a duration of
at least `MIN_UTTERANCE_MS`, a buffer that fits a WAV header and a WAV file that can be written,
the whole buffer goes to `handleUserUtterance` with the speaker id and display name, which
writes the WAV container of that buffer and runs whisper on it; the speaker has left
`activeListen`. -/
theorem capture_end_dispatches (cfg : Config) (env : PipelineEnv) (state : GuildState)
    (guildId : String) (userId : UserId) (member : Option Member) (chunks : List Bytes)
    (hquiet : state.isSpeaking = false)
    (hlong : ¬ (approxMs chunks.flatten.length : Int) < cfg.MIN_UTTERANCE_MS)
    (hfit : 36 + chunks.flatten.length < 2 ^ 32)
    (hwrite : env.writeFileOk = true) :
    (onCaptureEnd cfg env state guildId userId member chunks).2 =
        handleUserUtterance cfg env guildId userId (resolveUsername member) chunks.flatten ∧
      (onCaptureEnd cfg env state guildId userId member chunks).2.effects.take 2 =
        [.writeFile (wavHeader chunks.flatten.length 16000 1 ++ chunks.flatten),
          .whisper (wavHeader chunks.flatten.length 16000 1 ++ chunks.flatten)] ∧
      userId ∉ (onCaptureEnd cfg env state guildId userId member chunks).1.activeListen := by
  have hrun : onCaptureEnd cfg env state guildId userId member chunks =
      ({ state with activeListen := setDelete state.activeListen userId },
        handleUserUtterance cfg env guildId userId (resolveUsername member) chunks.flatten) := by
    simp [onCaptureEnd, hquiet]
  rw [hrun]
  refine ⟨rfl, ?_, ?_⟩
  · simp only [handleUserUtterance_long cfg env guildId userId _ _ hlong hfit, hwrite]
    cases hw : whisperTranscribe env.whisper with
    | error e => simp
    | ok transcript =>
      by_cases h1 : (transcript = "" || decide (jsLength transcript < 2)) = true
      · simp [h1]
      · by_cases h2 : isFarewell (jsTrim (jsToLowerCase transcript)) = true
        · simp [h1, h2]
        · cases hg : generateReplyFromTranscript env.memory transcript (resolveUsername member)
              userId env.ollama env.now env.nowIso env.saveMemoryOk with
          | error e => simp [h1, h2, hg]
          | ok reply => simp [h1, h2, hg]
  · simp [setDelete]

/-- The scenario of C5: 1200 ms of audio end while the bot is silent, and whisper is run on the
WAV container of the clip. -/
theorem capture_end_dispatches_witness :
    (listeningState.isSpeaking = false ∧
      ¬ ((approxMs ([silencePcm 1200].flatten).length : Int) < defaultConfig.MIN_UTTERANCE_MS) ∧
      36 + ([silencePcm 1200].flatten).length < 2 ^ 32 ∧ sampleEnv.writeFileOk = true) ∧
    (onCaptureEnd defaultConfig sampleEnv listeningState "guild" "alice" none
        [silencePcm 1200]).2.effects.take 2 =
      [.writeFile (wavHeader ([silencePcm 1200].flatten).length 16000 1
          ++ [silencePcm 1200].flatten),
        .whisper (wavHeader ([silencePcm 1200].flatten).length 16000 1
          ++ [silencePcm 1200].flatten)] :=
  have hlen : ([silencePcm 1200].flatten).length = 38400 := by
    simp [List.flatten, silencePcm_length]
  ⟨⟨rfl, by rw [hlen]; decide, by rw [hlen]; norm_num, rfl⟩,
    (capture_end_dispatches defaultConfig sampleEnv listeningState "guild" "alice" none
      [silencePcm 1200] rfl (by rw [hlen]; decide) (by rw [hlen]; norm_num) rfl).2.1⟩

/-- C8, as stated, fails.  The transcript `ok gn` contains `gn` as a whole token, yet the test
is `lower === "gn"`, so the pipeline calls `generateReplyFromTranscript` and speaks its reply,
not the farewell.  And a message handed to `speakInGuild` is not queued when the guild has no
connection. -/
theorem farewell_token_counterexample :
    (whisperTranscribe (.exited 0 "ok gn\n" "") = .ok "ok gn" ∧
    jsTrim (jsToLowerCase "ok gn") = "ok gn" ∧
    (handleUserUtterance defaultConfig { sampleEnv with whisper := .exited 0 "ok gn\n" "" }
        "guild" "alice" "Alice" (silencePcm 1200)).effects =
      [.writeFile (wavHeader 38400 16000 1 ++ silencePcm 1200),
        .whisper (wavHeader 38400 16000 1 ++ silencePcm 1200),
        .generate "ok gn" "Alice" "alice", .speak "guild" "hi", .unlink]) ∧
    (speechStep { joinedSpeech with guild := freshGuildState }
        (.call (buildGoodnightMessage sampleEnv.rnd 4 true))).actions = [] := by
  refine ⟨⟨rfl, by decide, ?_⟩, rfl⟩
  rw [handleUserUtterance_long _ _ _ _ _ _ (by rw [silencePcm_length]; decide)
    (by rw [silencePcm_length]; norm_num), silencePcm_length]
  rfl

/-- C8, amended. For a transcript of at least 2 characters whose lower-cased, trimmed form
contains `goodnight` or `good night`, or is exactly `gn`, `handleUserUtterance` passes the
message of `buildGoodnightMessage` (4 phrases, English included) to `speakInGuild`, which chains
it as a speech action when the guild has a connection, and never calls
`generateReplyFromTranscript`. -/
theorem farewell_short_circuits (cfg : Config) (env : PipelineEnv)
    (guildId userId username : String) (pcm : Bytes) (transcript : String)
    (hlong : ¬ (approxMs pcm.length : Int) < cfg.MIN_UTTERANCE_MS)
    (hfit : 36 + pcm.length < 2 ^ 32)
    (hwrite : env.writeFileOk = true)
    (hstt : whisperTranscribe env.whisper = .ok transcript)
    (hlen : 2 ≤ jsLength transcript)
    (hcue : jsIncludes (jsTrim (jsToLowerCase transcript)) "goodnight" = true ∨
      jsIncludes (jsTrim (jsToLowerCase transcript)) "good night" = true ∨
      jsTrim (jsToLowerCase transcript) = "gn") :
    (handleUserUtterance cfg env guildId userId username pcm).effects =
        [.writeFile (wavHeader pcm.length 16000 1 ++ pcm),
          .whisper (wavHeader pcm.length 16000 1 ++ pcm),
          .speak guildId (buildGoodnightMessage env.rnd 4 true), .unlink] ∧
      (∀ t n i, PipelineEffect.generate t n i ∉
        (handleUserUtterance cfg env guildId userId username pcm).effects) ∧
      (∀ s : SpeechState, s.guild.connection = true →
        (speechStep s (.call (buildGoodnightMessage env.rnd 4 true))).actions =
          s.actions ++ [⟨buildGoodnightMessage env.rnd 4 true, s.queue, .waiting, false⟩]) := by
  have hne : transcript ≠ "" := jsLength_empty_transcript transcript hlen
  have hfw : isFarewell (jsTrim (jsToLowerCase transcript)) = true := by
    unfold isFarewell
    rcases hcue with h | h | h
    · simp [h]
    · simp [h]
    · simp [h]
  have heff : (handleUserUtterance cfg env guildId userId username pcm).effects =
      [.writeFile (wavHeader pcm.length 16000 1 ++ pcm),
        .whisper (wavHeader pcm.length 16000 1 ++ pcm),
        .speak guildId (buildGoodnightMessage env.rnd 4 true), .unlink] := by
    rw [handleUserUtterance_long cfg env guildId userId username pcm hlong hfit]
    have hl : ¬ jsLength transcript < 2 := by omega
    simp [hwrite, hstt, hne, hl, hfw]
  refine ⟨heff, ?_, ?_⟩
  · intro t n i
    rw [heff]
    simp
  · intro s hc
    simp [speechStep, hc]

/-- The scenario of C8: the transcript `goodnight`. -/
theorem farewell_short_circuits_witness :
    (¬ ((approxMs (silencePcm 1200).length : Int) < defaultConfig.MIN_UTTERANCE_MS) ∧
      36 + (silencePcm 1200).length < 2 ^ 32 ∧ sampleEnv.writeFileOk = true ∧
      whisperTranscribe sampleEnv.whisper = .ok "goodnight" ∧ 2 ≤ jsLength "goodnight" ∧
      jsIncludes (jsTrim (jsToLowerCase "goodnight")) "goodnight" = true) ∧
    (handleUserUtterance defaultConfig sampleEnv "guild" "alice" "Alice"
        (silencePcm 1200)).effects =
      [.writeFile (wavHeader (silencePcm 1200).length 16000 1 ++ silencePcm 1200),
        .whisper (wavHeader (silencePcm 1200).length 16000 1 ++ silencePcm 1200),
        .speak "guild" (buildGoodnightMessage sampleEnv.rnd 4 true), .unlink] :=
  ⟨⟨by rw [silencePcm_length]; decide, by rw [silencePcm_length]; norm_num, rfl, rfl,
      by decide, by decide⟩,
    (farewell_short_circuits defaultConfig sampleEnv "guild" "alice" "Alice" (silencePcm 1200)
      "goodnight" (by rw [silencePcm_length]; decide) (by rw [silencePcm_length]; norm_num) rfl
      rfl (by decide) (Or.inl (by decide))).1⟩

/-- C10, as stated, fails: when Ollama answers with status 500, `ollamaGenerateText` throws, the
`catch` of `handleUserUtterance` logs the error and nothing is passed to `speakInGuild`. -/
theorem generation_failure_counterexample :
    ollamaGenerateText (.notOk 500 "boom") = .error "Ollama error: boom" ∧
    (handleUserUtterance defaultConfig
        { sampleEnv with whisper := .exited 0 "hello there\n" "", ollama := .notOk 500 "boom" }
        "guild" "alice" "Alice" (silencePcm 1200)).effects =
      [.writeFile (wavHeader 38400 16000 1 ++ silencePcm 1200),
        .whisper (wavHeader 38400 16000 1 ++ silencePcm 1200),
        .generate "hello there" "Alice" "alice", .logError, .unlink] := by
  refine ⟨rfl, ?_⟩
  rw [handleUserUtterance_long _ _ _ _ _ _ (by rw [silencePcm_length]; decide)
    (by rw [silencePcm_length]; norm_num), silencePcm_length]
  rfl

/-- C10, amended. For a transcript of at least 2 characters without a farewell cue: when the
generation collaborator fails (`ollamaGenerateText` throws), `handleUserUtterance` logs the
error and passes nothing to `speakInGuild`; the fixed filler is what it speaks when the
collaborator answers with an empty text (and the memory is saved). -/
theorem generation_failure_aborts (cfg : Config) (env : PipelineEnv)
    (guildId userId username : String) (pcm : Bytes) (transcript : String)
    (hlong : ¬ (approxMs pcm.length : Int) < cfg.MIN_UTTERANCE_MS)
    (hfit : 36 + pcm.length < 2 ^ 32)
    (hwrite : env.writeFileOk = true)
    (hstt : whisperTranscribe env.whisper = .ok transcript)
    (hlen : 2 ≤ jsLength transcript)
    (hcue : isFarewell (jsTrim (jsToLowerCase transcript)) = false) :
    ((∃ e, ollamaGenerateText env.ollama = .error e) →
      (handleUserUtterance cfg env guildId userId username pcm).effects =
        [.writeFile (wavHeader pcm.length 16000 1 ++ pcm),
          .whisper (wavHeader pcm.length 16000 1 ++ pcm),
          .generate transcript username userId, .logError, .unlink]) ∧
    (ollamaGenerateText env.ollama = .ok "" → env.saveMemoryOk = true →
      (handleUserUtterance cfg env guildId userId username pcm).effects =
        [.writeFile (wavHeader pcm.length 16000 1 ++ pcm),
          .whisper (wavHeader pcm.length 16000 1 ++ pcm),
          .generate transcript username userId, .speak guildId fillerReply, .unlink]) := by
  have hne : transcript ≠ "" := jsLength_empty_transcript transcript hlen
  have hl : ¬ jsLength transcript < 2 := by omega
  rw [handleUserUtterance_long cfg env guildId userId username pcm hlong hfit]
  constructor
  · rintro ⟨e, he⟩
    have hg : generateReplyFromTranscript env.memory transcript username userId env.ollama
        env.now env.nowIso env.saveMemoryOk = .error e := by
      simp [generateReplyFromTranscript, he]
    simp [hwrite, hstt, hne, hl, hcue, hg]
  · intro hok hsave
    have hg : ∃ m, generateReplyFromTranscript env.memory transcript username userId env.ollama
        env.now env.nowIso env.saveMemoryOk = .ok ⟨fillerReply, m⟩ := by
      simp [generateReplyFromTranscript, hok, hsave]
    obtain ⟨m, hm⟩ := hg
    simp [hwrite, hstt, hne, hl, hcue, hm]

/-- Two instances of the amended C10 on the transcript `hello there`: Ollama answering with
status 500, and Ollama answering with an empty text. -/
theorem generation_failure_aborts_witness :
    (handleUserUtterance defaultConfig
        { sampleEnv with whisper := .exited 0 "hello there\n" "", ollama := .notOk 500 "boom" }
        "guild" "alice" "Alice" (silencePcm 1200)).effects =
      [.writeFile (wavHeader (silencePcm 1200).length 16000 1 ++ silencePcm 1200),
        .whisper (wavHeader (silencePcm 1200).length 16000 1 ++ silencePcm 1200),
        .generate "hello there" "Alice" "alice", .logError, .unlink] ∧
    (handleUserUtterance defaultConfig
        { sampleEnv with whisper := .exited 0 "hello there\n" "", ollama := .ok (some " ") }
        "guild" "alice" "Alice" (silencePcm 1200)).effects =
      [.writeFile (wavHeader (silencePcm 1200).length 16000 1 ++ silencePcm 1200),
        .whisper (wavHeader (silencePcm 1200).length 16000 1 ++ silencePcm 1200),
        .generate "hello there" "Alice" "alice", .speak "guild" fillerReply, .unlink] :=
  ⟨(generation_failure_aborts defaultConfig
      { sampleEnv with whisper := .exited 0 "hello there\n" "", ollama := .notOk 500 "boom" }
      "guild" "alice" "Alice" (silencePcm 1200) "hello there"
      (by rw [silencePcm_length]; decide) (by rw [silencePcm_length]; norm_num) rfl
      rfl (by decide) (by decide)).1 ⟨_, rfl⟩,
    (generation_failure_aborts defaultConfig
      { sampleEnv with whisper := .exited 0 "hello there\n" "", ollama := .ok (some " ") }
      "guild" "alice" "Alice" (silencePcm 1200) "hello there"
      (by rw [silencePcm_length]; decide) (by rw [silencePcm_length]; norm_num) rfl
      rfl (by decide) (by decide)).2 rfl rfl⟩

/-! ## The farewell generator -/

theorem get_cons_eraseIdx_perm {α : Type} :
    ∀ (l : List α) (i : Nat) (h : i < l.length), (l.get ⟨i, h⟩ :: l.eraseIdx i).Perm l := by
  intro l
  induction l with
  | nil => intro i h; exact absurd h (Nat.not_lt_zero _)
  | cons a t ih =>
    intro i h
    cases i with
    | zero => exact List.Perm.refl _
    | succ j =>
      have hj : j < t.length := Nat.lt_of_succ_lt_succ h
      exact (List.Perm.swap a (t.get ⟨j, hj⟩) (t.eraseIdx j)).trans ((ih j hj).cons a)

/-- What the loop picks, followed by what it leaves, is a rearrangement of the array. -/
theorem pickLoop_perm {α : Type} (rnd : Nat → Draw) (remaining : Nat) :
    ∀ (k : Nat) (copy : List α), ∃ rest, (pickLoop rnd k copy remaining ++ rest).Perm copy := by
  induction remaining with
  | zero => intro k copy; exact ⟨copy, by simp [pickLoop]⟩
  | succ r ih =>
    intro k copy
    by_cases h : copy.length = 0
    · exact ⟨copy, by simp [pickLoop, h]⟩
    · obtain ⟨rest, hrest⟩ := ih (k + 1) (copy.eraseIdx ((rnd k).index copy.length))
      refine ⟨rest, ?_⟩
      simp only [pickLoop, h, dite_false, List.cons_append]
      exact (hrest.cons _).trans (get_cons_eraseIdx_perm copy _ _)

theorem pickLoop_length {α : Type} (rnd : Nat → Draw) (remaining : Nat) :
    ∀ (k : Nat) (copy : List α),
      (pickLoop rnd k copy remaining).length = min remaining copy.length := by
  induction remaining with
  | zero => intro k copy; simp [pickLoop]
  | succ r ih =>
    intro k copy
    by_cases h : copy.length = 0
    · simp [pickLoop, h]
    · have hidx : (rnd k).index copy.length < copy.length := by
        have hd := (rnd k).lt
        have hlen : 0 < copy.length := by omega
        exact (Nat.div_lt_iff_lt_mul (by omega)).2
          (by rw [Nat.mul_comm copy.length]; exact Nat.mul_lt_mul_of_pos_right hd hlen)
      simp only [pickLoop, h, dite_false, List.length_cons, ih,
        List.length_eraseIdx_of_lt hidx]
      omega

theorem pickRandom_nodup {α : Type} (rnd : Nat → Draw) (arr : List α) (n : Int)
    (h : arr.Nodup) : (pickRandom rnd arr n).Nodup := by
  obtain ⟨rest, hrest⟩ := pickLoop_perm rnd n.toNat 0 arr
  exact (List.nodup_append.mp (hrest.nodup_iff.mpr h)).1

theorem pickRandom_mem {α : Type} (rnd : Nat → Draw) (arr : List α) (n : Int) (x : α)
    (h : x ∈ pickRandom rnd arr n) : x ∈ arr := by
  obtain ⟨rest, hrest⟩ := pickLoop_perm rnd n.toNat 0 arr
  exact hrest.subset (List.mem_append_left _ h)

/-- C9. For every count, flag and random source, `buildGoodnightMessage` picks exactly
`min(8, max(1, count))` entries of `GOODNIGHT_PHRASES`, pairwise distinct, none with the code
`en` when `includeEnglish` is false, and returns the lead-in followed by the picks, each as its
text and its language in parentheses, in the order picked and joined by two spaces. -/
theorem goodnight_message_picks (rnd : Nat → Draw) (count : Int) (includeEnglish : Bool) :
    (goodnightPicks rnd count includeEnglish).length = (min 8 (max 1 count)).toNat ∧
    (goodnightPicks rnd count includeEnglish).Nodup ∧
    (∀ p ∈ goodnightPicks rnd count includeEnglish, p ∈ GOODNIGHT_PHRASES) ∧
    (includeEnglish = false → ∀ p ∈ goodnightPicks rnd count includeEnglish,
      p.code ≠ "en" ∧ p ≠ { lang := "English", code := "en", text := "Goodnight!" }) ∧
    buildGoodnightMessage rnd count includeEnglish =
      "Okay chat… " ++ "  ".intercalate
        ((goodnightPicks rnd count includeEnglish).map
          (fun p => p.text ++ " (" ++ p.lang ++ ")")) := by
  have hnodup : GOODNIGHT_PHRASES.Nodup := by decide
  have hclamp : max 1 (min 8 count) = min 8 (max 1 count) := by omega
  have hlenAll : GOODNIGHT_PHRASES.length = 17 := by decide
  have hlenFilt : (GOODNIGHT_PHRASES.filter (fun p => p.code ≠ "en")).length = 16 := by decide
  refine ⟨?_, ?_, ?_, ?_, rfl⟩
  · unfold goodnightPicks pickRandom
    rw [pickLoop_length, hclamp]
    cases includeEnglish
    · simp only [Bool.false_eq_true, if_false, hlenFilt]; omega
    · simp only [if_true, hlenAll]; omega
  · unfold goodnightPicks
    cases includeEnglish
    · exact pickRandom_nodup _ _ _ (by simpa using hnodup.filter _)
    · exact pickRandom_nodup _ _ _ (by simpa using hnodup)
  · intro p hp
    unfold goodnightPicks at hp
    cases includeEnglish
    · have := pickRandom_mem _ _ _ _ hp
      simp only [Bool.false_eq_true, if_false] at this
      exact (List.mem_filter.mp this).1
    · have := pickRandom_mem _ _ _ _ hp
      simpa using this
  · intro hfalse p hp
    subst hfalse
    unfold goodnightPicks at hp
    have hcode : p.code ≠ "en" := by
      have := pickRandom_mem _ _ _ _ hp
      simp only [Bool.false_eq_true, if_false] at this
      simpa using (List.mem_filter.mp this).2
    refine ⟨hcode, ?_⟩
    intro hp2
    rw [hp2] at hcode
    exact hcode rfl

/-- An instance of C9 with English excluded: a count of 100 is clamped to 8 picks, none of them
English. -/
theorem goodnight_message_picks_witness :
    (goodnightPicks sampleEnv.rnd 100 false).length = 8 ∧
    ∀ p ∈ goodnightPicks sampleEnv.rnd 100 false,
      p.code ≠ "en" ∧ p ≠ { lang := "English", code := "en", text := "Goodnight!" } :=
  ⟨(goodnight_message_picks sampleEnv.rnd 100 false).1,
    (goodnight_message_picks sampleEnv.rnd 100 false).2.2.2.1 rfl⟩

/-! ## The speech queue -/

theorem getElem?_updateAt (f : SpeechAction → SpeechAction) :
    ∀ (l : List SpeechAction) (k i : Nat),
      (updateAt l k f)[i]? = if i = k then (l[i]?).map f else l[i]? := by
  intro l
  induction l with
  | nil => intro k i; simp [updateAt]
  | cons a rest ih =>
    intro k i
    cases k with
    | zero =>
      cases i with
      | zero => simp [updateAt]
      | succ i => simp [updateAt]
    | succ k =>
      cases i with
      | zero => simp [updateAt]
      | succ i => simp [updateAt, ih k i]

theorem length_updateAt (f : SpeechAction → SpeechAction) :
    ∀ (l : List SpeechAction) (k : Nat), (updateAt l k f).length = l.length := by
  intro l
  induction l with
  | nil => intro k; simp [updateAt]
  | cons a rest ih =>
    intro k
    cases k with
    | zero => simp [updateAt]
    | succ k => simp [updateAt, ih k]

theorem phaseOf_lt (s : SpeechState) (k : Nat) (p : Phase) (h : phaseOf s k = some p) :
    k < s.actions.length := by
  unfold phaseOf at h
  by_contra hk
  rw [List.getElem?_eq_none (by omega)] at h
  simp at h

theorem phaseOf_of_lt (s : SpeechState) (k : Nat) (h : k < s.actions.length) :
    ∃ p, phaseOf s k = some p := by
  unfold phaseOf
  rw [List.getElem?_eq_getElem h]
  exact ⟨_, rfl⟩

theorem logOk_split (l1 l2 : List SpeechLog) (k : Nat) (t : String)
    (h : LogOk (l1 ++ SpeechLog.play k t :: l2)) :
    (∀ i, i < k → SpeechLog.settle i ∈ l2) ∧ (∀ j u, SpeechLog.play j u ∈ l2 → j < k) := by
  induction l1 with
  | nil => exact ⟨h.1, h.2.1⟩
  | cons e rest ih =>
    cases e with
    | play j u => exact ih h.2.2
    | settle j => exact ih h

theorem speechInv_joined : SpeechInv joinedSpeech where
  queue_eq := rfl
  waits_zero := by intro w h; simp [waitsOf, joinedSpeech] at h
  waits_succ := by intro k w h; simp [waitsOf, joinedSpeech] at h
  front := by intro i j p _ h; simp [phaseOf, joinedSpeech] at h
  log_play := by intro k t h; simp [joinedSpeech] at h
  log_settle := by intro k h; simp [phaseOf, joinedSpeech] at h
  log_ok := trivial

/-- How the accessors change when action `k` is replaced by `f` of it and `f` keeps the text and
the link. -/
theorem accessors_updateAt (s s' : SpeechState) (k : Nat) (a : SpeechAction)
    (f : SpeechAction → SpeechAction) (hk : s.actions[k]? = some a)
    (ha : s'.actions = updateAt s.actions k f)
    (htext : ∀ b, (f b).text = b.text) (hwait : ∀ b, (f b).waitsOn = b.waitsOn) :
    (∀ i, phaseOf s' i = if i = k then some (f a).phase else phaseOf s i) ∧
    (∀ i, textOf s' i = textOf s i) ∧ (∀ i, waitsOf s' i = waitsOf s i) ∧
    s'.actions.length = s.actions.length := by
  refine ⟨?_, ?_, ?_, ?_⟩
  · intro i
    unfold phaseOf
    rw [ha, getElem?_updateAt]
    by_cases hi : i = k
    · simp [hi, hk]
    · simp [hi]
  · intro i
    unfold textOf
    rw [ha, getElem?_updateAt]
    by_cases hi : i = k
    · simp [hi, hk, htext]
    · simp [hi]
  · intro i
    unfold waitsOf
    rw [ha, getElem?_updateAt]
    by_cases hi : i = k
    · simp [hi, hk, hwait]
    · simp [hi]
  · rw [ha, length_updateAt]

/-- Everything before an action that has left `waiting` has settled. -/
theorem SpeechInv.before_settled {s : SpeechState} (inv : SpeechInv s) (k : Nat) (p : Phase)
    (hp : phaseOf s k = some p) (hne : p ≠ Phase.waiting) :
    ∀ i, i < k → phaseOf s i = some Phase.settled :=
  fun i hi => inv.front i k p hi hp hne

/-- Everything before a waiting action whose link has settled has settled. -/
theorem SpeechInv.before_runnable {s : SpeechState} (inv : SpeechInv s) (k : Nat)
    (a : SpeechAction) (hk : s.actions[k]? = some a) (hlink : linkSettled s a.waitsOn = true) :
    ∀ i, i < k → phaseOf s i = some Phase.settled := by
  intro i hi
  cases k with
  | zero => exact absurd hi (Nat.not_lt_zero _)
  | succ k =>
    have hw : a.waitsOn = some k := inv.waits_succ k a.waitsOn (by simp [waitsOf, hk])
    rw [hw] at hlink
    have hprev : phaseOf s k = some Phase.settled := by
      simpa [linkSettled] using hlink
    by_cases hik : i = k
    · rw [hik]; exact hprev
    · exact inv.front i k _ (by omega) hprev (by decide)

/-- The invariant survives a change of phase of action `k` that leaves the log alone, as long
as the action leaves `waiting` for `synthesizing` with everything before it settled. -/
theorem SpeechInv.start {s s' : SpeechState} (inv : SpeechInv s) (k : Nat) (a : SpeechAction)
    (f : SpeechAction → SpeechAction) (hk : s.actions[k]? = some a)
    (hq : s'.queue = s.queue) (ha : s'.actions = updateAt s.actions k f)
    (hl : s'.log = s.log)
    (htext : ∀ b, (f b).text = b.text) (hwait : ∀ b, (f b).waitsOn = b.waitsOn)
    (hold : a.phase = Phase.waiting) (hnew : (f a).phase = Phase.synthesizing)
    (hlink : linkSettled s a.waitsOn = true) : SpeechInv s' := by
  obtain ⟨hph, htx, hwt, hlen⟩ := accessors_updateAt s s' k a f hk ha htext hwait
  have hphk : phaseOf s k = some Phase.waiting := by simp [phaseOf, hk, hold]
  have hbefore := inv.before_runnable k a hk hlink
  refine ⟨?_, ?_, ?_, ?_, ?_, ?_, ?_⟩
  · rw [hq, hlen]; exact inv.queue_eq
  · intro w h; rw [hwt] at h; exact inv.waits_zero w h
  · intro j w h; rw [hwt] at h; exact inv.waits_succ j w h
  · intro i j p hij hj hne
    rw [hph] at hj ⊢
    by_cases hjk : j = k
    · subst hjk
      have hik : i ≠ j := by omega
      simp only [hik, if_false]
      exact hbefore i hij
    · simp only [hjk, if_false] at hj
      have hold2 := inv.front i j p hij hj hne
      by_cases hik : i = k
      · rw [hik, hphk] at hold2
        exact absurd hold2 (by decide)
      · simpa [hik] using hold2
  · intro j t h
    rw [hl] at h
    obtain ⟨h1, p, h2, h3, h4⟩ := inv.log_play j t h
    have hjk : j ≠ k := by
      intro hjk
      rw [hjk, hphk] at h2
      exact h3 (Option.some.inj h2).symm
    refine ⟨by rw [htx]; exact h1, p, ?_, h3, h4⟩
    rw [hph]; simpa [hjk] using h2
  · intro j h
    rw [hph] at h
    rw [hl]
    by_cases hjk : j = k
    · simp [hjk, hnew] at h
    · simp only [hjk, if_false] at h
      exact inv.log_settle j h
  · rw [hl]; exact inv.log_ok

/-- The invariant survives `player.play` for a synthesizing action: the action moves on to
`playing` or `unlinking` and `play k` joins the log. -/
theorem SpeechInv.play {s s' : SpeechState} (inv : SpeechInv s) (k : Nat) (a : SpeechAction)
    (f : SpeechAction → SpeechAction) (hk : s.actions[k]? = some a)
    (hq : s'.queue = s.queue) (ha : s'.actions = updateAt s.actions k f)
    (hl : s'.log = SpeechLog.play k a.text :: s.log)
    (htext : ∀ b, (f b).text = b.text) (hwait : ∀ b, (f b).waitsOn = b.waitsOn)
    (hold : a.phase = Phase.synthesizing)
    (hnew : (f a).phase = Phase.playing ∨ (f a).phase = Phase.unlinking) : SpeechInv s' := by
  obtain ⟨hph, htx, hwt, hlen⟩ := accessors_updateAt s s' k a f hk ha htext hwait
  have hphk : phaseOf s k = some Phase.synthesizing := by simp [phaseOf, hk, hold]
  have hbefore := inv.before_settled k _ hphk (by decide)
  have hnew1 : (f a).phase ≠ Phase.waiting := by rcases hnew with h | h <;> simp [h]
  have hnew2 : (f a).phase ≠ Phase.synthesizing := by rcases hnew with h | h <;> simp [h]
  have hnew3 : (f a).phase ≠ Phase.settled := by rcases hnew with h | h <;> simp [h]
  refine ⟨?_, ?_, ?_, ?_, ?_, ?_, ?_⟩
  · rw [hq, hlen]; exact inv.queue_eq
  · intro w h; rw [hwt] at h; exact inv.waits_zero w h
  · intro j w h; rw [hwt] at h; exact inv.waits_succ j w h
  · intro i j p hij hj hne
    rw [hph] at hj ⊢
    by_cases hjk : j = k
    · subst hjk
      have hik : i ≠ j := by omega
      simp only [hik, if_false]
      exact hbefore i hij
    · simp only [hjk, if_false] at hj
      have hold2 := inv.front i j p hij hj hne
      by_cases hik : i = k
      · rw [hik, hphk] at hold2
        exact absurd hold2 (by decide)
      · simpa [hik] using hold2
  · intro j t h
    rw [hl] at h
    rcases List.mem_cons.mp h with h | h
    · injection h with hj ht
      subst hj
      refine ⟨?_, (f a).phase, ?_, hnew1, hnew2⟩
      · rw [htx, ht]; simp [textOf, hk]
      · rw [hph]; simp
    · obtain ⟨h1, p, h2, h3, h4⟩ := inv.log_play j t h
      have hjk : j ≠ k := by
        intro hjk
        rw [hjk, hphk] at h2
        exact h4 (Option.some.inj h2).symm
      refine ⟨by rw [htx]; exact h1, p, ?_, h3, h4⟩
      rw [hph]; simpa [hjk] using h2
  · intro j h
    rw [hph] at h
    rw [hl]
    by_cases hjk : j = k
    · simp only [hjk, if_true, Option.some.injEq] at h
      exact absurd h hnew3
    · simp only [hjk, if_false] at h
      exact List.mem_cons_of_mem _ (inv.log_settle j h)
  · rw [hl]
    refine ⟨?_, ?_, inv.log_ok⟩
    · intro i hi
      exact inv.log_settle i (hbefore i hi)
    · intro j u hj
      obtain ⟨_, p, h2, h3, h4⟩ := inv.log_play j u hj
      by_contra hlt
      have hjk : j ≠ k := by
        intro hjk
        rw [hjk, hphk] at h2
        exact h4 (Option.some.inj h2).symm
      have := inv.front k j p (by omega) h2 h3
      rw [hphk] at this
      exact absurd this (by decide)

/-- The invariant survives the link of action `k` settling, from `synthesizing` (piper failed)
or from `unlinking`: `settle k` joins the log. -/
theorem SpeechInv.settle {s s' : SpeechState} (inv : SpeechInv s) (k : Nat) (a : SpeechAction)
    (f : SpeechAction → SpeechAction) (hk : s.actions[k]? = some a)
    (hq : s'.queue = s.queue) (ha : s'.actions = updateAt s.actions k f)
    (hl : s'.log = SpeechLog.settle k :: s.log)
    (htext : ∀ b, (f b).text = b.text) (hwait : ∀ b, (f b).waitsOn = b.waitsOn)
    (hold : a.phase = Phase.synthesizing ∨ a.phase = Phase.unlinking)
    (hnew : (f a).phase = Phase.settled) : SpeechInv s' := by
  obtain ⟨hph, htx, hwt, hlen⟩ := accessors_updateAt s s' k a f hk ha htext hwait
  have hphk : phaseOf s k = some a.phase := by simp [phaseOf, hk]
  have hold1 : a.phase ≠ Phase.waiting := by rcases hold with h | h <;> simp [h]
  have hold2 : a.phase ≠ Phase.settled := by rcases hold with h | h <;> simp [h]
  have hbefore := inv.before_settled k _ hphk hold1
  refine ⟨?_, ?_, ?_, ?_, ?_, ?_, ?_⟩
  · rw [hq, hlen]; exact inv.queue_eq
  · intro w h; rw [hwt] at h; exact inv.waits_zero w h
  · intro j w h; rw [hwt] at h; exact inv.waits_succ j w h
  · intro i j p hij hj hne
    rw [hph] at hj ⊢
    by_cases hjk : j = k
    · subst hjk
      have hik : i ≠ j := by omega
      simp only [hik, if_false]
      exact hbefore i hij
    · simp only [hjk, if_false] at hj
      have hold3 := inv.front i j p hij hj hne
      by_cases hik : i = k
      · simp [hik, hnew]
      · simpa [hik] using hold3
  · intro j t h
    rw [hl] at h
    rcases List.mem_cons.mp h with h | h
    · exact SpeechLog.noConfusion h
    · obtain ⟨h1, p, h2, h3, h4⟩ := inv.log_play j t h
      by_cases hjk : j = k
      · refine ⟨by rw [htx]; exact h1, Phase.settled, ?_, by decide, by decide⟩
        rw [hph]; simp [hjk, hnew]
      · refine ⟨by rw [htx]; exact h1, p, ?_, h3, h4⟩
        rw [hph]; simpa [hjk] using h2
  · intro j h
    rw [hph] at h
    rw [hl]
    by_cases hjk : j = k
    · rw [hjk]; exact List.mem_cons_self _ _
    · simp only [hjk, if_false] at h
      exact List.mem_cons_of_mem _ (inv.log_settle j h)
  · rw [hl]; exact inv.log_ok

/-- The invariant survives the player going idle. -/
theorem SpeechInv.idle {s s' : SpeechState} (inv : SpeechInv s)
    (hq : s'.queue = s.queue)
    (ha : s'.actions = s.actions.map
      (fun a => if a.phase = Phase.playing then { a with phase := Phase.unlinking } else a))
    (hl : s'.log = s.log) : SpeechInv s' := by
  have hph : ∀ i, phaseOf s' i =
      (phaseOf s i).map (fun p => if p = Phase.playing then Phase.unlinking else p) := by
    intro i
    unfold phaseOf
    rw [ha, List.getElem?_map]
    cases s.actions[i]? with
    | none => rfl
    | some a =>
      by_cases hp : a.phase = Phase.playing
      · simp [hp]
      · simp [hp]
  have htx : ∀ i, textOf s' i = textOf s i := by
    intro i
    unfold textOf
    rw [ha, List.getElem?_map]
    cases s.actions[i]? with
    | none => rfl
    | some a =>
      by_cases hp : a.phase = Phase.playing
      · simp [hp]
      · simp [hp]
  have hwt : ∀ i, waitsOf s' i = waitsOf s i := by
    intro i
    unfold waitsOf
    rw [ha, List.getElem?_map]
    cases s.actions[i]? with
    | none => rfl
    | some a =>
      by_cases hp : a.phase = Phase.playing
      · simp [hp]
      · simp [hp]
  have hlen : s'.actions.length = s.actions.length := by rw [ha, List.length_map]
  have hsettled : ∀ i, phaseOf s' i = some Phase.settled ↔ phaseOf s i = some Phase.settled := by
    intro i
    rw [hph]
    cases phaseOf s i with
    | none => simp
    | some p => cases p <;> simp
  have hwaiting : ∀ i p, phaseOf s' i = some p → p ≠ Phase.waiting →
      ∃ q, phaseOf s i = some q ∧ q ≠ Phase.waiting := by
    intro i p h hne
    rw [hph] at h
    cases hq : phaseOf s i with
    | none => simp [hq] at h
    | some q =>
      refine ⟨q, rfl, ?_⟩
      intro hqw
      simp [hq, hqw] at h
      exact hne h.symm
  refine ⟨?_, ?_, ?_, ?_, ?_, ?_, ?_⟩
  · rw [hq, hlen]; exact inv.queue_eq
  · intro w h; rw [hwt] at h; exact inv.waits_zero w h
  · intro j w h; rw [hwt] at h; exact inv.waits_succ j w h
  · intro i j p hij hj hne
    obtain ⟨q, hq1, hq2⟩ := hwaiting j p hj hne
    exact (hsettled i).mpr (inv.front i j q hij hq1 hq2)
  · intro j t h
    rw [hl] at h
    obtain ⟨h1, p, h2, h3, h4⟩ := inv.log_play j t h
    refine ⟨by rw [htx]; exact h1,
      if p = Phase.playing then Phase.unlinking else p, by rw [hph, h2]; rfl, ?_, ?_⟩
    · cases p <;> simp at h3 ⊢
    · cases p <;> simp at h4 ⊢
  · intro j h
    rw [hl]
    exact inv.log_settle j ((hsettled j).mp h)
  · rw [hl]; exact inv.log_ok

/-- The invariant survives a `speakInGuild` call that chains a new action. -/
theorem SpeechInv.call {s s' : SpeechState} (inv : SpeechInv s) (text : String)
    (hq : s'.queue = some s.actions.length)
    (ha : s'.actions = s.actions ++
      [{ text := text, waitsOn := s.queue, phase := Phase.waiting, failed := false }])
    (hl : s'.log = s.log) : SpeechInv s' := by
  have hget : ∀ i, s'.actions[i]? =
      if i < s.actions.length then s.actions[i]?
      else if i = s.actions.length then
        some { text := text, waitsOn := s.queue, phase := Phase.waiting, failed := false }
      else none := by
    intro i
    rw [ha]
    by_cases h1 : i < s.actions.length
    · simp [h1, List.getElem?_append_left h1]
    · by_cases h2 : i = s.actions.length
      · simp [h2]
      · rw [List.getElem?_eq_none (by simp; omega)]
        simp [h1, h2]
  refine ⟨?_, ?_, ?_, ?_, ?_, ?_, ?_⟩
  · rw [hq, ha]; simp
  · intro w h
    unfold waitsOf at h
    rw [hget] at h
    by_cases h0 : 0 < s.actions.length
    · simp only [h0, if_true] at h
      exact inv.waits_zero w h
    · have hlen : s.actions.length = 0 := by omega
      have hqn : s.queue = none := by rw [inv.queue_eq, hlen]
      simp [hlen, hqn] at h
      exact h.symm
  · intro k w h
    unfold waitsOf at h
    rw [hget] at h
    by_cases h1 : k + 1 < s.actions.length
    · simp only [h1, if_true] at h
      exact inv.waits_succ k w h
    · by_cases h2 : k + 1 = s.actions.length
      · have hqn : s.queue = some k := by rw [inv.queue_eq, ← h2]
        simp [h2, hqn] at h
        exact h.symm
      · simp [h1, h2] at h
  · intro i j p hij hj hne
    unfold phaseOf at hj ⊢
    rw [hget] at hj
    by_cases h1 : j < s.actions.length
    · simp only [h1, if_true] at hj
      have hi : i < s.actions.length := by omega
      rw [hget]; simp only [hi, if_true]
      exact inv.front i j p hij hj hne
    · by_cases h2 : j = s.actions.length
      · simp [h2] at hj
        exact absurd hj.symm hne
      · simp [h1, h2] at hj
  · intro j t h
    rw [hl] at h
    obtain ⟨h1, p, h2, h3, h4⟩ := inv.log_play j t h
    have hj : j < s.actions.length := phaseOf_lt s j p h2
    refine ⟨?_, p, ?_, h3, h4⟩
    · unfold textOf at h1 ⊢; rw [hget]; simpa [hj] using h1
    · unfold phaseOf at h2 ⊢; rw [hget]; simpa [hj] using h2
  · intro j h
    rw [hl]
    unfold phaseOf at h
    rw [hget] at h
    by_cases h1 : j < s.actions.length
    · simp only [h1, if_true] at h
      exact inv.log_settle j h
    · by_cases h2 : j = s.actions.length
      · simp [h2] at h
      · simp [h1, h2] at h
  · rw [hl]; exact inv.log_ok

/-- Every step of the event loop keeps the invariant. -/
theorem speechStep_inv (s : SpeechState) (ev : SpeechEvent) (inv : SpeechInv s) :
    SpeechInv (speechStep s ev) := by
  cases ev with
  | call text =>
    by_cases hc : s.guild.connection = true
    · simp only [speechStep, hc, if_true]
      exact inv.call text rfl rfl rfl
    · simp only [speechStep, hc, if_false]
      exact inv
  | run k =>
    cases hk : s.actions[k]? with
    | none => simp only [speechStep, hk]; exact inv
    | some a =>
      by_cases hrun : a.phase = Phase.waiting ∧ linkSettled s a.waitsOn = true
      · simp only [speechStep, hk, hrun, and_self, if_true]
        exact inv.start k a _ hk rfl rfl rfl (fun _ => rfl) (fun _ => rfl) hrun.1 rfl hrun.2
      · simp only [speechStep, hk, hrun, if_false]
        exact inv
  | synthesized k ok =>
    cases hk : s.actions[k]? with
    | none => simp only [speechStep, hk]; exact inv
    | some a =>
      by_cases hph : a.phase = Phase.synthesizing
      · cases ok with
        | false =>
          simp only [speechStep, hk, hph, if_true, Bool.false_eq_true, if_false]
          exact inv.settle k a _ hk rfl rfl rfl (fun _ => rfl) (fun _ => rfl) (Or.inl hph) rfl
        | true =>
          by_cases hc : s.guild.connection = true
          · simp only [speechStep, hk, hph, hc, if_true]
            exact inv.play k a _ hk rfl rfl rfl (fun _ => rfl) (fun _ => rfl) hph (Or.inl rfl)
          · simp only [speechStep, hk, hph, hc, if_true, if_false]
            exact inv.play k a _ hk rfl rfl rfl (fun _ => rfl) (fun _ => rfl) hph (Or.inr rfl)
      · simp only [speechStep, hk, hph, if_false]
        exact inv
  | idle =>
    by_cases hany : (s.actions.any (fun a => a.phase == Phase.playing)) = true
    · simp only [speechStep, hany, if_true]
      exact inv.idle rfl rfl rfl
    · simp only [speechStep, hany, if_false]
      exact inv
  | unlinked k =>
    cases hk : s.actions[k]? with
    | none => simp only [speechStep, hk]; exact inv
    | some a =>
      by_cases hph : a.phase = Phase.unlinking
      · simp only [speechStep, hk, hph, if_true]
        exact inv.settle k a _ hk rfl rfl rfl (fun _ => rfl) (fun _ => rfl) (Or.inr hph) rfl
      · simp only [speechStep, hk, hph, if_false]
        exact inv
  | setConnection present =>
    exact ⟨inv.queue_eq, inv.waits_zero, inv.waits_succ, inv.front, inv.log_play,
      inv.log_settle, inv.log_ok⟩

/-- Every state the chain reaches keeps the invariant. -/
theorem speechRun_inv (evs : List SpeechEvent) :
    ∀ s : SpeechState, SpeechInv s → SpeechInv (speechRun s evs) := by
  induction evs with
  | nil => intro s inv; exact inv
  | cons ev rest ih =>
    intro s inv
    exact ih (speechStep s ev) (speechStep_inv s ev inv)

theorem map_text_updateAt (f : SpeechAction → SpeechAction) (htext : ∀ b, (f b).text = b.text) :
    ∀ (l : List SpeechAction) (k : Nat),
      (updateAt l k f).map (fun a => a.text) = l.map (fun a => a.text) := by
  intro l
  induction l with
  | nil => intro k; simp [updateAt]
  | cons a rest ih =>
    intro k
    cases k with
    | zero => simp [updateAt, htext]
    | succ k => simp [updateAt, ih k]

/-- A step appends the text of an accepted call to the texts of the chain and changes no other
text; it drops the connection only on `setConnection false`. -/
theorem speechStep_texts (s : SpeechState) (ev : SpeechEvent)
    (hc : s.guild.connection = true) (hev : ev ≠ SpeechEvent.setConnection false) :
    (speechStep s ev).actions.map (fun a => a.text) =
        s.actions.map (fun a => a.text) ++ callTexts [ev] ∧
      (speechStep s ev).guild.connection = true := by
  cases ev with
  | call text => simp [speechStep, hc, callTexts]
  | run k =>
    cases hk : s.actions[k]? with
    | none => simp [speechStep, hk, callTexts, hc]
    | some a =>
      by_cases hrun : a.phase = Phase.waiting ∧ linkSettled s a.waitsOn = true
      · simp [speechStep, hk, hrun, callTexts, hc, map_text_updateAt]
      · simp [speechStep, hk, hrun, callTexts, hc]
  | synthesized k ok =>
    cases hk : s.actions[k]? with
    | none => simp [speechStep, hk, callTexts, hc]
    | some a =>
      by_cases hph : a.phase = Phase.synthesizing
      · cases ok <;> simp [speechStep, hk, hph, callTexts, hc, map_text_updateAt]
      · simp [speechStep, hk, hph, callTexts, hc]
  | idle =>
    by_cases hany : (s.actions.any (fun a => a.phase == Phase.playing)) = true
    · simp only [speechStep, hany, if_true, callTexts, List.append_nil, List.map_map, hc,
        and_true]
      apply List.map_congr_left
      intro a _
      by_cases hp : a.phase = Phase.playing <;> simp [hp]
    · simp [speechStep, hany, callTexts, hc]
  | unlinked k =>
    cases hk : s.actions[k]? with
    | none => simp [speechStep, hk, callTexts, hc]
    | some a =>
      by_cases hph : a.phase = Phase.unlinking
      · by_cases hf : a.failed = true <;>
          simp [speechStep, hk, hph, hf, callTexts, hc, map_text_updateAt]
      · simp [speechStep, hk, hph, callTexts, hc]
  | setConnection present =>
    cases present with
    | false => exact absurd rfl hev
    | true => simp [speechStep, callTexts]

theorem callTexts_cons (ev : SpeechEvent) (rest : List SpeechEvent) :
    callTexts (ev :: rest) = callTexts [ev] ++ callTexts rest := by
  cases ev <;> simp [callTexts]

theorem speechRun_texts (evs : List SpeechEvent) :
    ∀ s : SpeechState, s.guild.connection = true →
      (∀ ev ∈ evs, ev ≠ SpeechEvent.setConnection false) →
      (speechRun s evs).actions.map (fun a => a.text) =
        s.actions.map (fun a => a.text) ++ callTexts evs := by
  induction evs with
  | nil => intro s _ _; simp [speechRun, callTexts]
  | cons ev rest ih =>
    intro s hc hev
    have hstep := speechStep_texts s ev hc (hev ev (List.mem_cons_self _ _))
    have := ih (speechStep s ev) hstep.2 (fun e he => hev e (List.mem_cons_of_mem _ he))
    simp only [speechRun, List.foldl_cons] at this ⊢
    rw [this, hstep.1, callTexts_cons ev rest, List.append_assoc]

theorem chainOf_length (p : Phase) :
    ∀ (ts : List String) (k : Nat), (chainOf k ts p).length = ts.length := by
  intro ts
  induction ts with
  | nil => intro k; rfl
  | cons t rest ih => intro k; simp [chainOf, ih]

theorem chainOf_append (p : Phase) :
    ∀ (ts us : List String) (k : Nat),
      chainOf k (ts ++ us) p = chainOf k ts p ++ chainOf (k + ts.length) us p := by
  intro ts
  induction ts with
  | nil => intro us k; simp [chainOf]
  | cons t rest ih =>
    intro us k
    have h := ih us (k + 1)
    rw [show k + 1 + rest.length = k + (rest.length + 1) by omega] at h
    simp [chainOf, h]

theorem playLog_append :
    ∀ (ts us : List String) (k : Nat),
      playLog k (ts ++ us) = playLog k ts ++ playLog (k + ts.length) us := by
  intro ts
  induction ts with
  | nil => intro us k; simp [playLog]
  | cons t rest ih =>
    intro us k
    have h := ih us (k + 1)
    rw [show k + 1 + rest.length = k + (rest.length + 1) by omega] at h
    simp [playLog, h]

theorem updateAt_append (f : SpeechAction → SpeechAction) (a : SpeechAction) :
    ∀ (l rest : List SpeechAction),
      updateAt (l ++ a :: rest) l.length f = l ++ f a :: rest := by
  intro l
  induction l with
  | nil => intro rest; rfl
  | cons b l ih => intro rest; simp [updateAt, ih]

theorem chainOf_settled_phase (k : Nat) (ts : List String) :
    ∀ a ∈ chainOf k ts .settled, a.phase = Phase.settled := by
  induction ts generalizing k with
  | nil => intro a h; simp [chainOf] at h
  | cons t rest ih =>
    intro a h
    simp only [chainOf, List.mem_cons] at h
    rcases h with h | h
    · rw [h]
    · exact ih (k + 1) a h

theorem chainOf_waiting_phase (k : Nat) (ts : List String) :
    ∀ a ∈ chainOf k ts .waiting, a.phase = Phase.waiting := by
  induction ts generalizing k with
  | nil => intro a h; simp [chainOf] at h
  | cons t rest ih =>
    intro a h
    simp only [chainOf, List.mem_cons] at h
    rcases h with h | h
    · rw [h]
    · exact ih (k + 1) a h

/-- A `speakInGuild` call on a served chain adds one waiting action. -/
theorem servedState_call (done todo : List String) (t : String) :
    speechStep (servedState done todo) (.call t) = servedState done (todo ++ [t]) := by
  have h1 : done.length + (todo.length + 1) ≠ 0 := by omega
  simp only [speechStep, servedState, freshGuildState, if_true, List.length_append,
    chainOf_length, chainOf_append, chainOf, List.append_assoc, List.length_cons,
    List.length_nil, Nat.zero_add, h1, if_false, Nat.add_sub_cancel, ← Nat.add_assoc]
  simp

theorem getElem?_append_cons (a : SpeechAction) :
    ∀ (l rest : List SpeechAction), (l ++ a :: rest)[l.length]? = some a := by
  intro l
  induction l with
  | nil => intro rest; simp
  | cons b l ih => intro rest; simpa using ih rest

theorem map_unlink_of_not_playing :
    ∀ (l : List SpeechAction), (∀ x ∈ l, x.phase ≠ Phase.playing) →
      l.map (fun a => if a.phase = Phase.playing then { a with phase := Phase.unlinking } else a)
        = l := by
  intro l
  induction l with
  | nil => intro _; rfl
  | cons b l ih =>
    intro h
    have hb : b.phase ≠ Phase.playing := h b (List.mem_cons_self _ _)
    have hl := ih (fun x hx => h x (List.mem_cons_of_mem _ hx))
    simp only [List.map_cons, hb, if_false, hl]

/-- Serving the first waiting action of a chain whose earlier actions have all settled: the
callback runs, piper succeeds, the player goes idle, `unlink` settles. -/
theorem serve_first_waiting (g : GuildState) (q : Option Nat) (before after : List SpeechAction)
    (a : SpeechAction) (lg : List SpeechLog)
    (hbefore : ∀ x ∈ before, x.phase = Phase.settled)
    (hafter : ∀ x ∈ after, x.phase = Phase.waiting)
    (ha : a.phase = Phase.waiting) (hfail : a.failed = false)
    (hw : a.waitsOn = if before.length = 0 then none else some (before.length - 1))
    (hc : g.connection = true) :
    speechRun { guild := g, queue := q, actions := before ++ a :: after, log := lg }
        (serveAction before.length) =
      { guild := { g with isSpeaking := false }, queue := q,
        actions := before ++ { a with phase := Phase.settled } :: after,
        log := .settle before.length :: .play before.length a.text :: lg } := by
  have hlink : linkSettled { guild := g, queue := q, actions := before ++ a :: after, log := lg }
      a.waitsOn = true := by
    rw [hw]
    by_cases h0 : before.length = 0
    · simp [h0, linkSettled]
    · simp only [h0, if_false, linkSettled, phaseOf]
      have hlt : before.length - 1 < before.length := by omega
      rw [List.getElem?_append_left hlt, List.getElem?_eq_getElem hlt]
      simp [hbefore _ (List.getElem_mem hlt)]
  have h1 : speechStep ⟨g, q, before ++ a :: after, lg⟩ (.run before.length) =
      ⟨{ g with isSpeaking := true }, q,
        before ++ { a with phase := Phase.synthesizing } :: after, lg⟩ := by
    simp only [speechStep, getElem?_append_cons, ha, hlink, and_self, if_true, updateAt_append]
  have h2 : speechStep ⟨{ g with isSpeaking := true }, q,
        before ++ { a with phase := Phase.synthesizing } :: after, lg⟩
      (.synthesized before.length true) =
      ⟨{ g with isSpeaking := true }, q, before ++ { a with phase := Phase.playing } :: after,
        .play before.length a.text :: lg⟩ := by
    simp only [speechStep, getElem?_append_cons, if_true, hc, updateAt_append]
  have hb2 : ∀ x ∈ before, x.phase ≠ Phase.playing := by
    intro x hx; rw [hbefore x hx]; decide
  have ha2 : ∀ x ∈ after, x.phase ≠ Phase.playing := by
    intro x hx; rw [hafter x hx]; decide
  have h3 : speechStep ⟨{ g with isSpeaking := true }, q,
        before ++ { a with phase := Phase.playing } :: after,
        .play before.length a.text :: lg⟩ .idle =
      ⟨{ g with isSpeaking := false }, q, before ++ { a with phase := Phase.unlinking } :: after,
        .play before.length a.text :: lg⟩ := by
    have hany : ((before ++ { a with phase := Phase.playing } :: after).any
        (fun a => a.phase == Phase.playing)) = true := by
      simp
    simp only [speechStep, hany, if_true, List.map_append, List.map_cons,
      map_unlink_of_not_playing before hb2, map_unlink_of_not_playing after ha2]
  have h4 : speechStep ⟨{ g with isSpeaking := false }, q,
        before ++ { a with phase := Phase.unlinking } :: after,
        .play before.length a.text :: lg⟩ (.unlinked before.length) =
      ⟨{ g with isSpeaking := false }, q, before ++ { a with phase := Phase.settled } :: after,
        .settle before.length :: .play before.length a.text :: lg⟩ := by
    simp only [speechStep, getElem?_append_cons, if_true, hfail, updateAt_append,
      Bool.false_eq_true, if_false]
  simp only [speechRun, serveAction, List.foldl_cons, List.foldl_nil, h1, h2, h3, h4]

/-- Serving the next action of a served chain. -/
theorem servedState_serve (done todo : List String) (t : String) :
    speechRun (servedState done (t :: todo)) (serveAction done.length) =
      servedState (done ++ [t]) todo := by
  have h := serve_first_waiting { freshGuildState with connection := true }
    (if done.length + (t :: todo).length = 0 then none
      else some (done.length + (t :: todo).length - 1))
    (chainOf 0 done .settled)
    (chainOf (done.length + 1) todo .waiting)
    { text := t, waitsOn := if done.length = 0 then none else some (done.length - 1),
      phase := .waiting, failed := false }
    (playLog 0 done).reverse
    (chainOf_settled_phase 0 done) (chainOf_waiting_phase _ todo) rfl rfl
    (by simp [chainOf_length]) rfl
  rw [chainOf_length] at h
  have hstart : servedState done (t :: todo) =
      ⟨{ freshGuildState with connection := true },
        (if done.length + (t :: todo).length = 0 then none
          else some (done.length + (t :: todo).length - 1)),
        chainOf 0 done .settled ++
          { text := t, waitsOn := if done.length = 0 then none else some (done.length - 1),
            phase := .waiting, failed := false } :: chainOf (done.length + 1) todo .waiting,
        (playLog 0 done).reverse⟩ := rfl
  rw [hstart, h]
  have hlen : (done ++ [t]).length + todo.length = done.length + (t :: todo).length := by
    simp; omega
  simp only [servedState, chainOf_append, playLog_append, chainOf, playLog, hlen,
    List.reverse_append, List.length_append, List.length_cons, List.length_nil, Nat.zero_add,
    List.append_assoc, List.reverse_cons, List.reverse_nil, List.nil_append, List.cons_append,
    List.singleton_append, freshGuildState]
  simp

theorem speechRun_append (s : SpeechState) (evs more : List SpeechEvent) :
    speechRun s (evs ++ more) = speechRun (speechRun s evs) more := by
  simp [speechRun, List.foldl_append]

theorem servedState_calls (done : List String) (ts : List String) :
    ∀ todo : List String,
      speechRun (servedState done todo) (ts.map SpeechEvent.call) = servedState done (todo ++ ts) := by
  induction ts with
  | nil => intro todo; simp [speechRun]
  | cons t rest ih =>
    intro todo
    have := ih (todo ++ [t])
    simp only [List.map_cons, speechRun, List.foldl_cons, servedState_call] at this ⊢
    rw [this, List.append_assoc, List.singleton_append]

theorem servedState_serveFrom (todo : List String) :
    ∀ done : List String,
      speechRun (servedState done todo) (serveFrom done.length todo.length) =
        servedState (done ++ todo) [] := by
  induction todo with
  | nil => intro done; simp [serveFrom, speechRun]
  | cons t rest ih =>
    intro done
    have h := ih (done ++ [t])
    rw [List.length_append, List.length_singleton] at h
    rw [List.length_cons, serveFrom, speechRun_append, servedState_serve, h, List.append_assoc,
      List.singleton_append]

/-- Calls with the given texts, followed by the completions of each action in turn, play every
text in call order. -/
theorem speechRun_serves_all (texts : List String) :
    speechRun joinedSpeech (texts.map SpeechEvent.call ++ serveFrom 0 texts.length) =
      servedState texts [] := by
  have h0 : joinedSpeech = servedState [] [] := rfl
  rw [speechRun_append, h0, servedState_calls, List.nil_append]
  exact servedState_serveFrom texts []

/-- A call leaves the phases of the chained actions as they are and adds a `waiting` one. -/
theorem phaseOf_call (s : SpeechState) (text : String) (k : Nat) (p : Phase)
    (h : phaseOf (speechStep s (.call text)) k = some p) :
    phaseOf s k = some p ∨ p = Phase.waiting := by
  by_cases hc : s.guild.connection = true
  · simp only [speechStep, hc, if_true, phaseOf] at h
    by_cases hk : k < s.actions.length
    · rw [List.getElem?_append_left hk] at h
      exact Or.inl h
    · by_cases hk2 : k = s.actions.length
      · right
        simp [hk2] at h
        exact h.symm
      · rw [List.getElem?_eq_none (by simp; omega)] at h
        simp at h
  · simp only [speechStep, hc, if_false] at h
    exact Or.inl h

/-- The player's `Idle` changes a phase only from `playing` to `unlinking`. -/
theorem phaseOf_idle (s : SpeechState) (k : Nat) (p : Phase)
    (h : phaseOf (speechStep s .idle) k = some p) :
    phaseOf s k = some p ∨ (p = Phase.unlinking ∧ phaseOf s k = some Phase.playing) := by
  by_cases hany : (s.actions.any (fun a => a.phase == Phase.playing)) = true
  · simp only [speechStep, hany, if_true, phaseOf, List.getElem?_map] at h
    unfold phaseOf
    cases hk : s.actions[k]? with
    | none => simp [hk] at h
    | some a =>
      by_cases hp : a.phase = Phase.playing
      · right
        simp [hk, hp] at h
        exact ⟨h.symm, by simp [hp]⟩
      · left
        simpa [hk, hp] using h
  · simp only [speechStep, hany, if_false] at h
    exact Or.inl h

/-- An action reaches `unlinking` or `settled` in one step only from `unlinking`, or because
the player's `Idle` arrives while it is playing, or because piper fails while it is
synthesizing, or because piper succeeds while the connection is gone (`subscribe` throws). -/
theorem speechStep_finish (s : SpeechState) (ev : SpeechEvent) (k : Nat)
    (h : phaseOf (speechStep s ev) k = some Phase.unlinking ∨
      phaseOf (speechStep s ev) k = some Phase.settled) :
    (phaseOf s k = some Phase.unlinking ∨ phaseOf s k = some Phase.settled) ∨
    (ev = SpeechEvent.idle ∧ phaseOf s k = some Phase.playing) ∨
    (ev = SpeechEvent.synthesized k false ∧ phaseOf s k = some Phase.synthesizing) ∨
    (ev = SpeechEvent.synthesized k true ∧ phaseOf s k = some Phase.synthesizing ∧
      s.guild.connection = false) := by
  cases ev with
  | call text =>
    rcases h with h | h
    · rcases phaseOf_call s text k _ h with h' | h'
      · exact Or.inl (Or.inl h')
      · exact absurd h' (by decide)
    · rcases phaseOf_call s text k _ h with h' | h'
      · exact Or.inl (Or.inr h')
      · exact absurd h' (by decide)
  | run j =>
    cases hj : s.actions[j]? with
    | none =>
      simp only [speechStep, hj] at h
      exact Or.inl h
    | some a =>
      by_cases hrun : a.phase = Phase.waiting ∧ linkSettled s a.waitsOn = true
      · have hph := (accessors_updateAt s
          (speechStep s (.run j)) j a (fun a => { a with phase := Phase.synthesizing }) hj
          (by simp only [speechStep, hj, hrun, and_self, if_true])
          (fun _ => rfl) (fun _ => rfl)).1 k
        rw [hph] at h
        by_cases hkj : k = j
        · simp [hkj] at h
        · simp only [hkj, if_false] at h
          exact Or.inl h
      · simp only [speechStep, hj, hrun, if_false] at h
        exact Or.inl h
  | synthesized j ok =>
    cases hj : s.actions[j]? with
    | none =>
      simp only [speechStep, hj] at h
      exact Or.inl h
    | some a =>
      by_cases hsyn : a.phase = Phase.synthesizing
      · have hold : phaseOf s j = some Phase.synthesizing := by simp [phaseOf, hj, hsyn]
        cases ok with
        | false =>
          have hph := (accessors_updateAt s
            (speechStep s (.synthesized j false)) j a
            (fun a => { a with phase := Phase.settled, failed := true }) hj
            (by simp only [speechStep, hj, hsyn, if_true, Bool.false_eq_true, if_false])
            (fun _ => rfl) (fun _ => rfl)).1 k
          by_cases hkj : k = j
          · subst hkj
            exact Or.inr (Or.inr (Or.inl ⟨rfl, hold⟩))
          · rw [hph] at h
            simp only [hkj, if_false] at h
            exact Or.inl h
        | true =>
          by_cases hc : s.guild.connection = true
          · have hph := (accessors_updateAt s
              (speechStep s (.synthesized j true)) j a
              (fun a => { a with phase := Phase.playing }) hj
              (by simp only [speechStep, hj, hsyn, hc, if_true])
              (fun _ => rfl) (fun _ => rfl)).1 k
            rw [hph] at h
            by_cases hkj : k = j
            · simp [hkj] at h
            · simp only [hkj, if_false] at h
              exact Or.inl h
          · have hph := (accessors_updateAt s
              (speechStep s (.synthesized j true)) j a
              (fun a => { a with phase := Phase.unlinking, failed := true }) hj
              (by simp only [speechStep, hj, hsyn, hc, if_true, if_false, Bool.false_eq_true])
              (fun _ => rfl) (fun _ => rfl)).1 k
            by_cases hkj : k = j
            · subst hkj
              exact Or.inr (Or.inr (Or.inr ⟨rfl, hold, by simpa using hc⟩))
            · rw [hph] at h
              simp only [hkj, if_false] at h
              exact Or.inl h
      · simp only [speechStep, hj, hsyn, if_false] at h
        exact Or.inl h
  | idle =>
    rcases h with h | h
    · rcases phaseOf_idle s k _ h with h' | h'
      · exact Or.inl (Or.inl h')
      · exact Or.inr (Or.inl ⟨rfl, h'.2⟩)
    · rcases phaseOf_idle s k _ h with h' | h'
      · exact Or.inl (Or.inr h')
      · exact absurd h'.1 (by decide)
  | unlinked j =>
    cases hj : s.actions[j]? with
    | none =>
      simp only [speechStep, hj] at h
      exact Or.inl h
    | some a =>
      by_cases hun : a.phase = Phase.unlinking
      · have hph := (accessors_updateAt s
          (speechStep s (.unlinked j)) j a (fun a => { a with phase := Phase.settled }) hj
          (by simp only [speechStep, hj, hun, if_true])
          (fun _ => rfl) (fun _ => rfl)).1 k
        by_cases hkj : k = j
        · subst hkj
          exact Or.inl (Or.inl (by simp [phaseOf, hj, hun]))
        · rw [hph] at h
          simp only [hkj, if_false] at h
          exact Or.inl h
      · simp only [speechStep, hj, hun, if_false] at h
        exact Or.inl h
  | setConnection present =>
    exact Or.inl h

/-- A `settle k` entry is logged only by `unlinked k` on an unlinking action or by piper's
failure on a synthesizing one. -/
theorem speechStep_log_settle (s : SpeechState) (ev : SpeechEvent) (k : Nat)
    (h : SpeechLog.settle k ∈ (speechStep s ev).log) :
    SpeechLog.settle k ∈ s.log ∨ phaseOf s k = some Phase.unlinking ∨
    (ev = SpeechEvent.synthesized k false ∧ phaseOf s k = some Phase.synthesizing) := by
  cases ev with
  | call text =>
    by_cases hc : s.guild.connection = true
    · simp only [speechStep, hc, if_true] at h
      exact Or.inl h
    · simp only [speechStep, hc, if_false] at h
      exact Or.inl h
  | run j =>
    cases hj : s.actions[j]? with
    | none =>
      simp only [speechStep, hj] at h
      exact Or.inl h
    | some a =>
      by_cases hrun : a.phase = Phase.waiting ∧ linkSettled s a.waitsOn = true
      · simp only [speechStep, hj, hrun, and_self, if_true] at h
        exact Or.inl h
      · simp only [speechStep, hj, hrun, if_false] at h
        exact Or.inl h
  | synthesized j ok =>
    cases hj : s.actions[j]? with
    | none =>
      simp only [speechStep, hj] at h
      exact Or.inl h
    | some a =>
      by_cases hsyn : a.phase = Phase.synthesizing
      · cases ok with
        | false =>
          simp only [speechStep, hj, hsyn, if_true, Bool.false_eq_true, if_false,
            List.mem_cons] at h
          rcases h with h | h
          · have hkj : k = j := by injection h
            subst hkj
            exact Or.inr (Or.inr ⟨rfl, by simp [phaseOf, hj, hsyn]⟩)
          · exact Or.inl h
        | true =>
          by_cases hc : s.guild.connection = true
          · simp only [speechStep, hj, hsyn, hc, if_true, List.mem_cons] at h
            rcases h with h | h
            · exact absurd h (by simp)
            · exact Or.inl h
          · simp only [speechStep, hj, hsyn, hc, if_true, if_false, Bool.false_eq_true,
              List.mem_cons] at h
            rcases h with h | h
            · exact absurd h (by simp)
            · exact Or.inl h
      · simp only [speechStep, hj, hsyn, if_false] at h
        exact Or.inl h
  | idle =>
    by_cases hany : (s.actions.any (fun a => a.phase == Phase.playing)) = true
    · simp only [speechStep, hany, if_true] at h
      exact Or.inl h
    · simp only [speechStep, hany, if_false] at h
      exact Or.inl h
  | unlinked j =>
    cases hj : s.actions[j]? with
    | none =>
      simp only [speechStep, hj] at h
      exact Or.inl h
    | some a =>
      by_cases hun : a.phase = Phase.unlinking
      · simp only [speechStep, hj, hun, if_true, List.mem_cons] at h
        rcases h with h | h
        · have hkj : k = j := by injection h
          subst hkj
          exact Or.inr (Or.inl (by simp [phaseOf, hj, hun]))
        · exact Or.inl h
      · simp only [speechStep, hj, hun, if_false] at h
        exact Or.inl h
  | setConnection present =>
    exact Or.inl h

/-- Whatever the events, an action that is unlinking or settled, or whose settlement is
logged, was ended by an earlier event of the run: the player's `Idle` while it was playing,
piper's failure while it was synthesizing, or piper's success with the connection gone. -/
theorem speechRun_ended (evs : List SpeechEvent) : ∀ k,
    (phaseOf (speechRun joinedSpeech evs) k = some Phase.unlinking ∨
      phaseOf (speechRun joinedSpeech evs) k = some Phase.settled ∨
      SpeechLog.settle k ∈ (speechRun joinedSpeech evs).log) →
    ∃ pre e post, evs = pre ++ e :: post ∧
      ((e = SpeechEvent.idle ∧ phaseOf (speechRun joinedSpeech pre) k = some Phase.playing) ∨
       (e = SpeechEvent.synthesized k false ∧
         phaseOf (speechRun joinedSpeech pre) k = some Phase.synthesizing) ∨
       (e = SpeechEvent.synthesized k true ∧
         phaseOf (speechRun joinedSpeech pre) k = some Phase.synthesizing ∧
         (speechRun joinedSpeech pre).guild.connection = false)) := by
  induction evs using List.reverseRecOn with
  | nil =>
    intro k h
    simp [speechRun, joinedSpeech, phaseOf] at h
  | append_singleton pre e ih =>
    intro k h
    have hrun : speechRun joinedSpeech (pre ++ [e]) =
        speechStep (speechRun joinedSpeech pre) e := by
      simp [speechRun, List.foldl_append]
    rw [hrun] at h
    have hold : (phaseOf (speechRun joinedSpeech pre) k = some Phase.unlinking ∨
        phaseOf (speechRun joinedSpeech pre) k = some Phase.settled ∨
        SpeechLog.settle k ∈ (speechRun joinedSpeech pre).log) →
        ∃ pre1 e1 post1, pre ++ [e] = pre1 ++ e1 :: post1 ∧
          ((e1 = SpeechEvent.idle ∧
              phaseOf (speechRun joinedSpeech pre1) k = some Phase.playing) ∨
           (e1 = SpeechEvent.synthesized k false ∧
             phaseOf (speechRun joinedSpeech pre1) k = some Phase.synthesizing) ∨
           (e1 = SpeechEvent.synthesized k true ∧
             phaseOf (speechRun joinedSpeech pre1) k = some Phase.synthesizing ∧
             (speechRun joinedSpeech pre1).guild.connection = false)) := by
      intro hp
      obtain ⟨pre1, e1, post1, heq, hc⟩ := ih k hp
      exact ⟨pre1, e1, post1 ++ [e], by simp [heq], hc⟩
    have hphase : (phaseOf (speechStep (speechRun joinedSpeech pre) e) k = some Phase.unlinking ∨
        phaseOf (speechStep (speechRun joinedSpeech pre) e) k = some Phase.settled) →
        ∃ pre1 e1 post1, pre ++ [e] = pre1 ++ e1 :: post1 ∧
          ((e1 = SpeechEvent.idle ∧
              phaseOf (speechRun joinedSpeech pre1) k = some Phase.playing) ∨
           (e1 = SpeechEvent.synthesized k false ∧
             phaseOf (speechRun joinedSpeech pre1) k = some Phase.synthesizing) ∨
           (e1 = SpeechEvent.synthesized k true ∧
             phaseOf (speechRun joinedSpeech pre1) k = some Phase.synthesizing ∧
             (speechRun joinedSpeech pre1).guild.connection = false)) := by
      intro hp
      rcases speechStep_finish _ e k hp with hprev | hcause
      · rcases hprev with hprev | hprev
        · exact hold (Or.inl hprev)
        · exact hold (Or.inr (Or.inl hprev))
      · exact ⟨pre, e, [], rfl, hcause⟩
    rcases h with h | h | h
    · exact hphase (Or.inl h)
    · exact hphase (Or.inr h)
    · rcases speechStep_log_settle _ e k h with hprev | hprev | hfail
      · exact hold (Or.inr (Or.inr hprev))
      · exact hold (Or.inl hprev)
      · exact ⟨pre, e, [], rfl, Or.inr (Or.inl hfail)⟩

/-- C2. Whatever the order in which the event loop delivers calls and completions to a guild
that starts with a connection: when `player.play` is called for action `k` with text `t`, `t` is
the text of the `k`-th chained call, every action chained before `k` has already settled, and
every playback started before is of an action chained earlier; no action has left `waiting`
unless every action before it has settled; as long as the connection stays, the chained actions
are the calls, in call order; calls followed by the completions of each action in turn play
every text, in call order; every logged settlement of an action follows an event that ended it:
the player's `Idle` arriving while it was playing, piper failing while it was synthesizing, or
piper succeeding with the connection gone (`subscribe` throws); and at every point of the run,
once an action has left `waiting`, every action chained before it is settled and was ended by
such an event earlier in the run. -/
theorem speech_queue_fifo (evs : List SpeechEvent) :
    (∀ before after k t,
      (speechRun joinedSpeech evs).log.reverse = before ++ SpeechLog.play k t :: after →
        textOf (speechRun joinedSpeech evs) k = some t ∧
        (∀ i, i < k → SpeechLog.settle i ∈ before) ∧
        (∀ j u, SpeechLog.play j u ∈ before → j < k)) ∧
    (∀ i j p, i < j → phaseOf (speechRun joinedSpeech evs) j = some p → p ≠ Phase.waiting →
      phaseOf (speechRun joinedSpeech evs) i = some Phase.settled) ∧
    ((∀ ev ∈ evs, ev ≠ SpeechEvent.setConnection false) →
      (speechRun joinedSpeech evs).actions.map (fun a => a.text) = callTexts evs) ∧
    (∀ texts : List String,
      (speechRun joinedSpeech
        (texts.map SpeechEvent.call ++ serveFrom 0 texts.length)).log.reverse
        = playLog 0 texts) ∧
    (∀ k, SpeechLog.settle k ∈ (speechRun joinedSpeech evs).log →
      ∃ pre e post, evs = pre ++ e :: post ∧
        ((e = SpeechEvent.idle ∧ phaseOf (speechRun joinedSpeech pre) k = some Phase.playing) ∨
         (e = SpeechEvent.synthesized k false ∧
           phaseOf (speechRun joinedSpeech pre) k = some Phase.synthesizing) ∨
         (e = SpeechEvent.synthesized k true ∧
           phaseOf (speechRun joinedSpeech pre) k = some Phase.synthesizing ∧
           (speechRun joinedSpeech pre).guild.connection = false))) ∧
    (∀ upto rest i j p, evs = upto ++ rest → i < j →
      phaseOf (speechRun joinedSpeech upto) j = some p → p ≠ Phase.waiting →
      phaseOf (speechRun joinedSpeech upto) i = some Phase.settled ∧
      ∃ pre e post, upto = pre ++ e :: post ∧
        ((e = SpeechEvent.idle ∧ phaseOf (speechRun joinedSpeech pre) i = some Phase.playing) ∨
         (e = SpeechEvent.synthesized i false ∧
           phaseOf (speechRun joinedSpeech pre) i = some Phase.synthesizing) ∨
         (e = SpeechEvent.synthesized i true ∧
           phaseOf (speechRun joinedSpeech pre) i = some Phase.synthesizing ∧
           (speechRun joinedSpeech pre).guild.connection = false))) := by
  have inv := speechRun_inv evs joinedSpeech speechInv_joined
  refine ⟨?_, inv.front, ?_, ?_, ?_, ?_⟩
  · intro before after k t hlog
    have hrev : (speechRun joinedSpeech evs).log =
        after.reverse ++ SpeechLog.play k t :: before.reverse := by
      have := congrArg List.reverse hlog
      simpa using this
    have hmem : SpeechLog.play k t ∈ (speechRun joinedSpeech evs).log := by
      rw [hrev]; simp
    have hok := inv.log_ok
    rw [hrev] at hok
    obtain ⟨h1, h2⟩ := logOk_split _ _ k t hok
    refine ⟨(inv.log_play k t hmem).1, ?_, ?_⟩
    · intro i hi
      exact List.mem_reverse.mp (h1 i hi)
    · intro j u hj
      exact h2 j u (List.mem_reverse.mpr hj)
  · intro hev
    have := speechRun_texts evs joinedSpeech rfl hev
    simpa [joinedSpeech] using this
  · intro texts
    rw [speechRun_serves_all]
    simp [servedState]
  · intro k hk
    exact speechRun_ended evs k (Or.inr (Or.inr hk))
  · intro upto rest i j p _ hij hj hp
    have hi := (speechRun_inv upto joinedSpeech speechInv_joined).front i j p hij hj hp
    exact ⟨hi, speechRun_ended upto i (Or.inr (Or.inl hi))⟩

/-- The scenario of C2: three calls `T1`, `T2`, `T3`, with completions for the second and third
delivered before their turn; playback is `T1`, `T2`, `T3`, each after the one before settled.
And in a run of two calls, when the second action starts synthesizing the first is settled and
was ended by the player's `Idle` arriving while it was playing. -/
theorem speech_queue_fifo_witness :
    (∀ ev ∈ [SpeechEvent.call "T1", .call "T2", .run 1, .synthesized 1 true, .call "T3", .run 2,
        .run 0, .idle, .synthesized 0 true, .run 1, .synthesized 2 true, .idle, .run 1,
        .unlinked 0, .run 2, .run 1, .synthesized 1 true, .run 2, .idle, .unlinked 1, .run 2,
        .synthesized 2 true, .idle, .unlinked 2],
      ev ≠ SpeechEvent.setConnection false) ∧
    (speechRun joinedSpeech [.call "T1", .call "T2", .run 1, .synthesized 1 true, .call "T3",
        .run 2, .run 0, .idle, .synthesized 0 true, .run 1, .synthesized 2 true, .idle, .run 1,
        .unlinked 0, .run 2, .run 1, .synthesized 1 true, .run 2, .idle, .unlinked 1, .run 2,
        .synthesized 2 true, .idle, .unlinked 2]).actions.map (fun a => a.text)
      = ["T1", "T2", "T3"] ∧
    (speechRun joinedSpeech [.call "T1", .call "T2", .run 1, .synthesized 1 true, .call "T3",
        .run 2, .run 0, .idle, .synthesized 0 true, .run 1, .synthesized 2 true, .idle, .run 1,
        .unlinked 0, .run 2, .run 1, .synthesized 1 true, .run 2, .idle, .unlinked 1, .run 2,
        .synthesized 2 true, .idle, .unlinked 2]).log.reverse
      = [.play 0 "T1", .settle 0, .play 1 "T2", .settle 1, .play 2 "T3", .settle 2] ∧
    phaseOf (speechRun joinedSpeech [.call "T1", .call "T2", .run 0, .synthesized 0 true, .idle,
        .unlinked 0, .run 1]) 1 = some Phase.synthesizing ∧
    (phaseOf (speechRun joinedSpeech [.call "T1", .call "T2", .run 0, .synthesized 0 true, .idle,
        .unlinked 0, .run 1]) 0 = some Phase.settled ∧
      ∃ pre e post, [SpeechEvent.call "T1", .call "T2", .run 0, .synthesized 0 true, .idle,
          .unlinked 0, .run 1] = pre ++ e :: post ∧
        ((e = SpeechEvent.idle ∧ phaseOf (speechRun joinedSpeech pre) 0 = some Phase.playing) ∨
         (e = SpeechEvent.synthesized 0 false ∧
           phaseOf (speechRun joinedSpeech pre) 0 = some Phase.synthesizing) ∨
         (e = SpeechEvent.synthesized 0 true ∧
           phaseOf (speechRun joinedSpeech pre) 0 = some Phase.synthesizing ∧
           (speechRun joinedSpeech pre).guild.connection = false))) :=
  ⟨by decide, (speech_queue_fifo _).2.2.1 (by decide), by decide, by decide,
    (speech_queue_fifo _).2.2.2.2.2 _ [] 0 1 Phase.synthesizing rfl (by decide) (by decide)
      (by decide)⟩

/-! ## Leaving and re-joining -/

/-- C11, as stated, fails: `/leave` clears `activeListen` but leaves `lastHeard` as it is.
`alice` is admitted at 10000, the bot leaves and joins again, and her next event at 11000 is
rejected by the cooldown recorded before the leave. -/
theorem leave_keeps_lastHeard_counterexample :
    admitted defaultConfig
        (onSpeakingStart defaultConfig (joinSession freshGuildState) "alice" 10000 false)
        "alice" = true ∧
      (leaveSession (onSpeakingStart defaultConfig (joinSession freshGuildState) "alice" 10000
        false).state).activeListen = [] ∧
      (leaveSession (onSpeakingStart defaultConfig (joinSession freshGuildState) "alice" 10000
        false).state).lastHeard "alice" = some 10000 ∧
      admitted defaultConfig
        (onSpeakingStart defaultConfig
          (joinSession (leaveSession (onSpeakingStart defaultConfig (joinSession freshGuildState)
            "alice" 10000 false).state))
          "alice" 11000 false)
        "alice" = false := by
  refine ⟨by decide, by decide, by decide, by decide⟩

/-- The `leave` event of the session machine is the teardown of the `/leave` handler. -/
theorem sessionStep_leave (cfg : Config) (s : GuildState) :
    sessionStep cfg s .leave = leaveSession s := rfl

theorem joinSession_leaveSession (s : GuildState) :
    joinSession (leaveSession s) =
      { s with connection := true, listeningWired := true, activeListen := [] } := by
  simp [joinSession, leaveSession, startListeningForVoice]

/-- C11, amended. After the `/leave` teardown the session has no connection, its listeners are
unwired and `activeListen` is empty, while `lastHeard` and `isSpeaking` are what they were.  So
after a re-join a speaker whose last admitted start is less than `COOLDOWN_MS` ago is still
rejected; and a speaking-start event is admitted exactly when the bot was not speaking at the
leave, the speaker is not the bot and the speaker's cooldown has elapsed, whether or not a
capture of that speaker was open at the leave. -/
theorem leave_clears_listeners_keeps_cooldown (cfg : Config) (s : GuildState) :
    (leaveSession s).activeListen = [] ∧ (leaveSession s).connection = false ∧
    (leaveSession s).listeningWired = false ∧ (leaveSession s).lastHeard = s.lastHeard ∧
    (leaveSession s).isSpeaking = s.isSpeaking ∧
    (∀ (u : UserId) (last now : Int) (thr : Bool), s.lastHeard u = some last →
      now - last < cfg.COOLDOWN_MS →
      admitted cfg (onSpeakingStart cfg (joinSession (leaveSession s)) u now thr) u = false) ∧
    (∀ (u : UserId) (now : Int) (thr : Bool),
      admitted cfg (onSpeakingStart cfg (joinSession (leaveSession s)) u now thr) u = true ↔
        (s.isSpeaking = false ∧ u ≠ cfg.botId ∧
          ¬ (now - (s.lastHeard u).getD 0 < cfg.COOLDOWN_MS))) := by
  refine ⟨rfl, rfl, rfl, rfl, rfl, ?_, ?_⟩
  · intro u last now thr hlast hnow
    cases hadm : admitted cfg (onSpeakingStart cfg (joinSession (leaveSession s)) u now thr) u
    · rfl
    · have hopen := (admitted_iff_gateOpen cfg _ u now thr).mp hadm
      have h4 := hopen.2.2.2
      rw [joinSession_leaveSession] at h4
      simp only [hlast, Option.getD_some] at h4
      exact absurd hnow h4
  · intro u now thr
    rw [admitted_iff_gateOpen, joinSession_leaveSession]
    constructor
    · intro hopen
      exact ⟨hopen.1, hopen.2.2.1, hopen.2.2.2⟩
    · intro h
      exact ⟨h.1, by simp, h.2.1, h.2.2⟩

/-- An instance of the amended C11: `alice`, last admitted at 10000, is rejected at 11000 and
admitted at 12000 after a leave and a re-join; had the bot been speaking at the leave, she
would not be admitted at 12000 either. -/
theorem leave_clears_listeners_keeps_cooldown_witness :
    (heardState.lastHeard "alice" = some 10000 ∧
      (11000 : Int) - 10000 < defaultConfig.COOLDOWN_MS ∧
      admitted defaultConfig
        (onSpeakingStart defaultConfig (joinSession (leaveSession heardState)) "alice" 11000
          false) "alice" = false) ∧
    (heardState.isSpeaking = false ∧ "alice" ≠ defaultConfig.botId ∧
      ¬ ((12000 : Int) - (heardState.lastHeard "alice").getD 0 < defaultConfig.COOLDOWN_MS) ∧
      admitted defaultConfig
        (onSpeakingStart defaultConfig (joinSession (leaveSession heardState)) "alice" 12000
          false) "alice" = true) ∧
    ¬ (admitted defaultConfig
        (onSpeakingStart defaultConfig
          (joinSession (leaveSession { heardState with isSpeaking := true })) "alice" 12000
          false) "alice" = true) :=
  ⟨⟨rfl, by decide,
      (leave_clears_listeners_keeps_cooldown defaultConfig heardState).2.2.2.2.2.1 "alice" 10000
        11000 false rfl (by decide)⟩,
    ⟨rfl, by decide, by decide,
      ((leave_clears_listeners_keeps_cooldown defaultConfig heardState).2.2.2.2.2.2 "alice" 12000
        false).mpr ⟨rfl, by decide, by decide⟩⟩,
    fun h => absurd
      (((leave_clears_listeners_keeps_cooldown defaultConfig
        { heardState with isSpeaking := true }).2.2.2.2.2.2 "alice" 12000 false).mp h).1
      (by decide)⟩

/-! ## The cooldown boundary -/

/-- C12, as stated, fails: the test is `now - last < COOLDOWN_MS`, so an event exactly
`COOLDOWN_MS = 2000` after the last recorded start (10000) passes the cooldown and is
admitted. -/
theorem cooldown_boundary_counterexample :
    heardState.lastHeard "alice" = some 10000 ∧
      (12000 : Int) - 10000 = defaultConfig.COOLDOWN_MS ∧
      admitted defaultConfig (onSpeakingStart defaultConfig heardState "alice" 12000 false)
        "alice" = true := by
  refine ⟨rfl, by decide, by decide⟩

/-- C12, amended. For a speaker with a recorded `lastHeard` timestamp, the gate admits a new
capture only if `now - lastHeard[speaker]` is at least `COOLDOWN_MS`; an event exactly
`COOLDOWN_MS` after the last recorded start is admitted when the bot is not speaking, the
speaker has no open capture and is not the bot, and on admission `lastHeard[speaker]` becomes
`now`. -/
theorem cooldown_admits_from_boundary (cfg : Config) (s : GuildState) (u : UserId)
    (last now : Int) (thr : Bool) (hlast : s.lastHeard u = some last) :
    (admitted cfg (onSpeakingStart cfg s u now thr) u = true →
      cfg.COOLDOWN_MS ≤ now - last ∧
      (onSpeakingStart cfg s u now thr).state.lastHeard u = some now) ∧
    (now - last = cfg.COOLDOWN_MS → s.isSpeaking = false → u ∉ s.activeListen →
      u ≠ cfg.botId → admitted cfg (onSpeakingStart cfg s u now thr) u = true) := by
  constructor
  · intro hadm
    have hopen := (admitted_iff_gateOpen cfg s u now thr).mp hadm
    have h4 := hopen.2.2.2
    simp only [hlast, Option.getD_some] at h4
    refine ⟨by omega, ?_⟩
    rw [(onSpeakingStart_open cfg s u now thr hopen).2.1]
    simp [mapSet]
  · intro heq hquiet hact hbot
    apply (admitted_iff_gateOpen cfg s u now thr).mpr
    refine ⟨hquiet, hact, hbot, ?_⟩
    simp only [hlast, Option.getD_some]
    omega

/-- An instance of the amended C12: `alice`, last admitted at 10000, is admitted again at
exactly 12000. -/
theorem cooldown_admits_from_boundary_witness :
    (heardState.lastHeard "alice" = some 10000 ∧
      (12000 : Int) - 10000 = defaultConfig.COOLDOWN_MS ∧ heardState.isSpeaking = false ∧
      "alice" ∉ heardState.activeListen ∧ "alice" ≠ defaultConfig.botId) ∧
    admitted defaultConfig (onSpeakingStart defaultConfig heardState "alice" 12000 false)
      "alice" = true :=
  ⟨⟨rfl, by decide, rfl, by decide, by decide⟩,
    (cooldown_admits_from_boundary defaultConfig heardState "alice" 10000 12000 false rfl).2
      (by decide) rfl (by decide) (by decide)⟩

/-! ## The secret filter of the memory -/

theorem lowerChar_of_ascii (c : Char) (h : c.toLower.toNat < 128) :
    lowerChar c = [c.toLower] := by
  have hc : c.toNat < 128 := by
    by_cases hr : c.toNat ≥ 65 ∧ c.toNat ≤ 90
    · omega
    · simpa [Char.toLower, hr] using h
  unfold lowerChar
  have h1 : c.toNat ≠ 0x130 := by omega
  have h2 : c.toNat ≠ 0x212A := by omega
  simp [h1, h2]

theorem includesChars_append (pat : List Char) :
    ∀ (pre post : List Char), includesChars (pre ++ pat ++ post) pat = true := by
  intro pre
  induction pre with
  | nil =>
    intro post
    cases hp : pat ++ post with
    | nil =>
      obtain ⟨h1, h2⟩ := List.append_eq_nil.mp hp
      simp [includesChars, h1, h2]
    | cons c cs =>
      simp only [List.nil_append, hp, includesChars, Bool.or_eq_true]
      left
      rw [← hp]
      simp
  | cons c rest ih =>
    intro post
    simp only [List.cons_append, includesChars, Bool.or_eq_true]
    right
    exact ih post

theorem flatten_lowerChar_of_ascii :
    ∀ mid : List Char, (∀ c ∈ mid, (Char.toLower c).toNat < 128) →
      (mid.map lowerChar).flatten = mid.map Char.toLower := by
  intro mid
  induction mid with
  | nil => intro _; rfl
  | cons c rest ih =>
    intro h
    have hc := lowerChar_of_ascii c (h c (List.mem_cons_self _ _))
    have hrest := ih (fun d hd => h d (List.mem_cons_of_mem _ hd))
    simp [hc, hrest]

/-- A text that contains an upper- or lower-case variant of an ASCII pattern has the pattern in
its lower-case form. -/
theorem jsIncludes_lower_of_variant (pre mid post pat : List Char)
    (hpat : ∀ c ∈ pat, c.toNat < 128) (hmid : mid.map Char.toLower = pat) :
    jsIncludes (jsToLowerCase ⟨pre ++ mid ++ post⟩) ⟨pat⟩ = true := by
  have hascii : ∀ c ∈ mid, (Char.toLower c).toNat < 128 := by
    intro c hc
    apply hpat
    rw [← hmid]
    exact List.mem_map_of_mem _ hc
  unfold jsIncludes jsToLowerCase
  simp only [List.map_append, List.flatten_append, flatten_lowerChar_of_ascii mid hascii, hmid]
  exact includesChars_append pat _ _

theorem takeWhile_append_all (p : Char → Bool) :
    ∀ (key post : List Char), (∀ c ∈ key, p c = true) →
      key.length ≤ ((key ++ post).takeWhile p).length := by
  intro key
  induction key with
  | nil => intro post _; simp
  | cons c rest ih =>
    intro post h
    have hc := h c (List.mem_cons_self _ _)
    have hrest := ih post (fun d hd => h d (List.mem_cons_of_mem _ hd))
    simp only [List.cons_append, List.takeWhile_cons, hc, if_true, List.length_cons]
    omega

/-- A text with `sk-` (in either case) followed by at least 10 letters or digits matches the
key pattern. -/
theorem matchesSkKey_of_key (a b : Char) (key : List Char)
    (ha : a = 's' ∨ a = 'S') (hb : b = 'k' ∨ b = 'K') (hlen : 10 ≤ key.length)
    (hkey : ∀ c ∈ key, c.isAlphanum = true) :
    ∀ (pre post : List Char),
      matchesSkKey (pre ++ (a :: b :: '-' :: (key ++ post))) = true := by
  intro pre
  induction pre with
  | nil =>
    intro post
    have htw := takeWhile_append_all Char.isAlphanum key post hkey
    have hten : 10 ≤ ((key ++ post).takeWhile Char.isAlphanum).length := by omega
    have hsk : skKeyAt (a :: b :: '-' :: (key ++ post)) = true := by
      simp only [skKeyAt, hten, ge_iff_le, decide_True, Bool.and_true, beq_self_eq_true]
      rcases ha with h | h <;> rcases hb with h' | h' <;> simp [h, h']
    simp only [List.nil_append, matchesSkKey, hsk, Bool.true_or]
  | cons c rest ih =>
    intro post
    simp only [List.cons_append, matchesSkKey, Bool.or_eq_true]
    right
    exact ih post

theorem pushTurn_suffix (memory : Memory) (turn : Turn) :
    (pushTurn memory turn).recent_turns <:+ memory.recent_turns ++ [turn] := by
  by_cases h : (memory.recent_turns ++ [turn]).length > 60
  · simp only [pushTurn, h, if_true]
    exact List.drop_suffix _ _
  · simp only [pushTurn, h, if_false]
    exact List.suffix_refl _

/-- A block of at most 60 turns at the end of the log survives the trim of `pushTurn`. -/
theorem pushTurn_keeps (memory : Memory) (turn : Turn) (block : List Turn)
    (hblock : block <:+ memory.recent_turns ++ [turn]) (hlen : block.length ≤ 60) :
    block <:+ (pushTurn memory turn).recent_turns := by
  by_cases h : (memory.recent_turns ++ [turn]).length > 60
  · simp only [pushTurn, h, if_true]
    rw [List.suffix_iff_eq_drop] at hblock
    rw [hblock]
    exact List.drop_suffix_drop_left _ (by omega)
  · simp only [pushTurn, h, if_false]
    exact hblock

theorem suffix_append_right {α : Type} (l1 l2 l : List α) (h : l1 <:+ l2) :
    l1 ++ l <:+ l2 ++ l := by
  obtain ⟨t, ht⟩ := h
  exact ⟨t, by rw [← ht, List.append_assoc]⟩

/-- What `shouldStoreText` refuses: a text that holds `password`, `api key` or `secret` in any
mix of upper and lower case, or `sk-` followed by at least 10 letters or digits. -/
theorem shouldStoreText_refuses :
    (∀ pre mid post : List Char,
      (mid.map Char.toLower = "password".data ∨ mid.map Char.toLower = "api key".data ∨
        mid.map Char.toLower = "secret".data) →
      shouldStoreText ⟨pre ++ mid ++ post⟩ = false) ∧
    (∀ (pre post key : List Char) (a b : Char), (a = 's' ∨ a = 'S') → (b = 'k' ∨ b = 'K') →
      10 ≤ key.length → (∀ c ∈ key, c.isAlphanum = true) →
      shouldStoreText ⟨pre ++ (a :: b :: '-' :: (key ++ post))⟩ = false) := by
  constructor
  · intro pre mid post h
    rcases h with h | h | h
    · have hw : jsIncludes (jsToLowerCase ⟨pre ++ mid ++ post⟩) "password" = true :=
        jsIncludes_lower_of_variant pre mid post "password".data (by decide) h
      simp only [shouldStoreText, hw, Bool.true_or, if_true]
    · have hw : jsIncludes (jsToLowerCase ⟨pre ++ mid ++ post⟩) "api key" = true :=
        jsIncludes_lower_of_variant pre mid post "api key".data (by decide) h
      simp only [shouldStoreText, hw, Bool.true_or, Bool.or_true, if_true]
    · have hw : jsIncludes (jsToLowerCase ⟨pre ++ mid ++ post⟩) "secret" = true :=
        jsIncludes_lower_of_variant pre mid post "secret".data (by decide) h
      simp only [shouldStoreText, hw, Bool.or_true, if_true]
  · intro pre post key a b ha hb hlen hkey
    unfold shouldStoreText
    have := matchesSkKey_of_key a b key ha hb hlen hkey pre post
    simp [this]

/-- What `shouldStoreText` accepts: a text whose lower-case form holds none of the three words
and that has no match of the key pattern. -/
theorem shouldStoreText_accepts (text : String)
    (h1 : jsIncludes (jsToLowerCase text) "password" = false)
    (h2 : jsIncludes (jsToLowerCase text) "api key" = false)
    (h3 : jsIncludes (jsToLowerCase text) "secret" = false)
    (h4 : matchesSkKey text.data = false) : shouldStoreText text = true := by
  simp [shouldStoreText, h1, h2, h3, h4]

/-- The log that `generateReplyFromTranscript` saves, in each of the four outcomes of the two
filter tests. -/
theorem generateReply_saved (memory : Memory) (transcript username userId : String)
    (ollama : OllamaOutcome) (now : Int) (nowIso : String) (reply : String)
    (hgen : ollamaGenerateText ollama = .ok reply) :
    ∃ saved : Memory,
      generateReplyFromTranscript memory transcript username userId ollama now nowIso true =
        .ok ⟨if reply = "" then fillerReply else reply, saved⟩ ∧
      saved.recent_turns <:+ memory.recent_turns ++
        ((if shouldStoreText transcript then
            [⟨"user", transcript, now, some userId, some username⟩] else []) ++
          (if shouldStoreText (if reply = "" then fillerReply else reply) then
            [⟨"assistant", if reply = "" then fillerReply else reply, now, none, none⟩]
            else [])) ∧
      ((if shouldStoreText transcript then
            [⟨"user", transcript, now, some userId, some username⟩] else []) ++
          (if shouldStoreText (if reply = "" then fillerReply else reply) then
            [⟨"assistant", if reply = "" then fillerReply else reply, now, none, none⟩]
            else [])) <:+ saved.recent_turns := by
  generalize hsafe : (if reply = "" then fillerReply else reply) = safe
  cases hT : shouldStoreText transcript <;> cases hR : shouldStoreText safe
  · refine ⟨{ memory with last_updated := some nowIso }, ?_, ?_, ?_⟩
    · simp [generateReplyFromTranscript, hgen, hsafe, hT, hR]
    · simp
    · simp
  · refine ⟨{ pushTurn memory ⟨"assistant", safe, now, none, none⟩ with
        last_updated := some nowIso }, ?_, ?_, ?_⟩
    · simp [generateReplyFromTranscript, hgen, hsafe, hT, hR]
    · simpa using pushTurn_suffix memory ⟨"assistant", safe, now, none, none⟩
    · simpa using pushTurn_keeps memory ⟨"assistant", safe, now, none, none⟩
        [⟨"assistant", safe, now, none, none⟩] (List.suffix_append _ _) (by simp)
  · refine ⟨{ pushTurn memory ⟨"user", transcript, now, some userId, some username⟩ with
        last_updated := some nowIso }, ?_, ?_, ?_⟩
    · simp [generateReplyFromTranscript, hgen, hsafe, hT, hR]
    · simpa using pushTurn_suffix memory ⟨"user", transcript, now, some userId, some username⟩
    · simpa using pushTurn_keeps memory ⟨"user", transcript, now, some userId, some username⟩
        [⟨"user", transcript, now, some userId, some username⟩] (List.suffix_append _ _)
        (by simp)
  · refine ⟨{ pushTurn (pushTurn memory ⟨"user", transcript, now, some userId, some username⟩)
        ⟨"assistant", safe, now, none, none⟩ with last_updated := some nowIso }, ?_, ?_, ?_⟩
    · simp [generateReplyFromTranscript, hgen, hsafe, hT, hR]
    · have h1 := pushTurn_suffix
        (pushTurn memory ⟨"user", transcript, now, some userId, some username⟩)
        ⟨"assistant", safe, now, none, none⟩
      have h2 := suffix_append_right _ _ [(⟨"assistant", safe, now, none, none⟩ : Turn)]
        (pushTurn_suffix memory ⟨"user", transcript, now, some userId, some username⟩)
      simpa using h1.trans h2
    · have h1 := pushTurn_keeps memory ⟨"user", transcript, now, some userId, some username⟩
        [⟨"user", transcript, now, some userId, some username⟩] (List.suffix_append _ _)
        (by simp)
      have h2 := suffix_append_right _ _ [(⟨"assistant", safe, now, none, none⟩ : Turn)] h1
      simpa using pushTurn_keeps _ ⟨"assistant", safe, now, none, none⟩ _ h2 (by simp)

/-- C13. When the generation call returns `reply` and the memory file is saved,
`generateReplyFromTranscript` returns the reply to be spoken (the filler for an empty reply),
and the log it saves is the old log, trimmed at the front, followed by the turn of the
transcript if `shouldStoreText` accepts its text and the turn of the reply if `shouldStoreText`
accepts its text, and by nothing else.  `shouldStoreText` refuses every text that holds
`password`, `api key` or `secret` in any mix of upper and lower case or `sk-` followed by at
least 10 letters or digits, and accepts a text with none of these patterns.  (When saving the
memory fails the call is rejected and nothing is stored.) -/
theorem secret_like_turns_not_stored (memory : Memory) (transcript username userId : String)
    (ollama : OllamaOutcome) (now : Int) (nowIso : String) (reply : String)
    (hgen : ollamaGenerateText ollama = .ok reply) :
    (∃ saved : Memory,
      generateReplyFromTranscript memory transcript username userId ollama now nowIso true =
        .ok ⟨if reply = "" then fillerReply else reply, saved⟩ ∧
      saved.recent_turns <:+ memory.recent_turns ++
        ((if shouldStoreText transcript then
            [⟨"user", transcript, now, some userId, some username⟩] else []) ++
          (if shouldStoreText (if reply = "" then fillerReply else reply) then
            [⟨"assistant", if reply = "" then fillerReply else reply, now, none, none⟩]
            else [])) ∧
      ((if shouldStoreText transcript then
            [⟨"user", transcript, now, some userId, some username⟩] else []) ++
          (if shouldStoreText (if reply = "" then fillerReply else reply) then
            [⟨"assistant", if reply = "" then fillerReply else reply, now, none, none⟩]
            else [])) <:+ saved.recent_turns) ∧
    generateReplyFromTranscript memory transcript username userId ollama now nowIso false =
      .error "saveMemory failed" ∧
    (∀ pre mid post : List Char,
      (mid.map Char.toLower = "password".data ∨ mid.map Char.toLower = "api key".data ∨
        mid.map Char.toLower = "secret".data) →
      shouldStoreText ⟨pre ++ mid ++ post⟩ = false) ∧
    (∀ (pre post key : List Char) (a b : Char), (a = 's' ∨ a = 'S') → (b = 'k' ∨ b = 'K') →
      10 ≤ key.length → (∀ c ∈ key, c.isAlphanum = true) →
      shouldStoreText ⟨pre ++ (a :: b :: '-' :: (key ++ post))⟩ = false) ∧
    (∀ text : String, jsIncludes (jsToLowerCase text) "password" = false →
      jsIncludes (jsToLowerCase text) "api key" = false →
      jsIncludes (jsToLowerCase text) "secret" = false →
      matchesSkKey text.data = false → shouldStoreText text = true) := by
  refine ⟨generateReply_saved memory transcript username userId ollama now nowIso reply hgen,
    ?_, shouldStoreText_refuses.1, shouldStoreText_refuses.2, shouldStoreText_accepts⟩
  simp [generateReplyFromTranscript, hgen]

/-- An instance of C13: the transcript `my PassWord is hunter2` is refused by the filter, the
reply `Nice try.` is returned, and the saved log ends with the turn of the reply alone. -/
theorem secret_like_turns_not_stored_witness :
    (ollamaGenerateText (.ok (some "Nice try.")) = .ok "Nice try." ∧
      shouldStoreText "my PassWord is hunter2" = false ∧ shouldStoreText "Nice try." = true) ∧
    (∃ saved : Memory,
      generateReplyFromTranscript ⟨"", [], none⟩ "my PassWord is hunter2" "Alice" "alice"
          (.ok (some "Nice try.")) 5 "t" true =
        .ok ⟨if "Nice try." = "" then fillerReply else "Nice try.", saved⟩ ∧
      saved.recent_turns <:+ (⟨"", [], none⟩ : Memory).recent_turns ++
        ((if shouldStoreText "my PassWord is hunter2" then
            [⟨"user", "my PassWord is hunter2", 5, some "alice", some "Alice"⟩] else []) ++
          (if shouldStoreText (if "Nice try." = "" then fillerReply else "Nice try.") then
            [⟨"assistant", if "Nice try." = "" then fillerReply else "Nice try.", 5, none, none⟩]
            else [])) ∧
      ((if shouldStoreText "my PassWord is hunter2" then
            [⟨"user", "my PassWord is hunter2", 5, some "alice", some "Alice"⟩] else []) ++
          (if shouldStoreText (if "Nice try." = "" then fillerReply else "Nice try.") then
            [⟨"assistant", if "Nice try." = "" then fillerReply else "Nice try.", 5, none, none⟩]
            else [])) <:+ saved.recent_turns) :=
  ⟨⟨rfl, by decide, by decide⟩,
    (secret_like_turns_not_stored ⟨"", [], none⟩ "my PassWord is hunter2" "Alice" "alice"
      (.ok (some "Nice try.")) 5 "t" "Nice try." rfl).1⟩

end Ember
